import Mathlib

/-!
Verification model of the constrained query-execution engine of the
`mpc-tool-natural-language-to-query` repository (src/utils/dbHelpers.js).

The engine is embedded shallowly over `List Char`:
 * the validation gate of `executeDbQuery` (lines 224-255),
 * the dispatcher `executeViaSupabaseRPC` (lines 262-318) with its
   fallback classification of RPC errors,
 * the pattern translator `parseAndExecuteQuery` (lines 323-471) whose seven
   shape recognizers are JavaScript regular expressions, modelled here by a
   backtracking matcher over lists of characters with JS semantics
   (leftmost match, greedy quantifiers, ordered alternatives).
The external Supabase client is modelled as a record of query-builder
operations; executions additionally return the list of backend calls issued.
-/

namespace DbHelpers

/-! ### Character classes (JavaScript regex semantics) -/

/-- JS whitespace (`\s`, and the set trimmed by `String.prototype.trim`):
space, tab, LF, VT, FF, CR, NBSP, various Unicode spaces (code points). -/
def isSpaceCh (c : Char) : Bool :=
  c.toNat = 32 || c.toNat = 9 || c.toNat = 10 || c.toNat = 11 || c.toNat = 12 ||
  c.toNat = 13 || c.toNat = 0xa0 || c.toNat = 0x1680 ||
  (0x2000 ≤ c.toNat && c.toNat ≤ 0x200a) ||
  c.toNat = 0x2028 || c.toNat = 0x2029 || c.toNat = 0x202f ||
  c.toNat = 0x205f || c.toNat = 0x3000 || c.toNat = 0xfeff

/-- JS word character (`\w`): `[A-Za-z0-9_]` (code points 97-122, 65-90,
48-57, 95). -/
def isWordCh (c : Char) : Bool :=
  (97 ≤ c.toNat && c.toNat ≤ 122) || (65 ≤ c.toNat && c.toNat ≤ 90) ||
  (48 ≤ c.toNat && c.toNat ≤ 57) || c.toNat = 95

/-- JS decimal digit (`\d`): `[0-9]`. -/
def isDigitCh (c : Char) : Bool := 48 ≤ c.toNat && c.toNat ≤ 57

/-- Characters matched by the JS regex dot `.`: anything except a line
terminator (LF, CR, LS, PS). -/
def isDotCh (c : Char) : Bool :=
  !(c.toNat = 10 || c.toNat = 13 || c.toNat = 0x2028 || c.toNat = 0x2029)

/-- The single-quote character, `'`. -/
def quoteCh : Char := Char.ofNat 39

theorem isWordCh_not_space {c : Char} (h : isWordCh c = true) : isSpaceCh c = false := by
  rw [Bool.eq_false_iff]
  intro hs
  simp only [isWordCh, Bool.or_eq_true, Bool.and_eq_true, decide_eq_true_eq] at h
  simp only [isSpaceCh, Bool.or_eq_true, Bool.and_eq_true, decide_eq_true_eq] at hs
  omega

theorem isDigitCh_word {c : Char} (h : isDigitCh c = true) : isWordCh c = true := by
  simp only [isDigitCh, Bool.and_eq_true, decide_eq_true_eq] at h
  simp only [isWordCh, Bool.or_eq_true, Bool.and_eq_true, decide_eq_true_eq]
  omega

/-! ### JS string primitives over `List Char` -/

/-- `String.prototype.trim`: drop leading and trailing whitespace. -/
def trimChars (s : List Char) : List Char :=
  ((s.dropWhile isSpaceCh).reverse.dropWhile isSpaceCh).reverse

/-- `str.replace(/;+$/, '')`: drop the trailing run of semicolons. -/
def stripTrailingSemis (s : List Char) : List Char :=
  (s.reverse.dropWhile (fun c => c = ';')).reverse

/-- `String.prototype.toLowerCase` on ASCII: map `A`-`Z` to `a`-`z`. -/
def toLowerCh (c : Char) : Char :=
  if 'A' ≤ c && c ≤ 'Z' then Char.ofNat (c.toNat + 32) else c

/-- `String.prototype.includes`: substring containment. -/
def containsSub (needle : List Char) : List Char → Bool
  | [] => needle.isEmpty
  | c :: rest => needle.isPrefixOf (c :: rest) || containsSub needle rest

/-- `String.prototype.split` with a one-character separator. -/
def splitOnCh (sep : Char) : List Char → List (List Char)
  | [] => [[]]
  | c :: cs =>
    match splitOnCh sep cs with
    | [] => if c = sep then [[], []] else [[c]]
    | h :: t => if c = sep then [] :: h :: t else (c :: h) :: t

/-- `parseInt` on a string of decimal digits. -/
def natOfDigits (ds : List Char) : Nat :=
  ds.foldl (fun n c => 10 * n + (c.toNat - 48)) 0

/-! ### Backtracking regex matcher

A matcher of type `Pc α` maps an input to the list of `(capture, rest)`
outcomes in JS backtracking preference order (greedy quantifiers produce
longer matches first, an optional group tries matching before skipping).
The overall regex match is the head of the outcome list. -/

abbrev Pc (α : Type) := List Char → List (α × List Char)

def ppure {α : Type} (a : α) : Pc α := fun s => [(a, s)]

def pbind {α β : Type} (p : Pc α) (f : α → Pc β) : Pc β :=
  fun s => (p s).flatMap (fun ar => f ar.1 ar.2)

/-- Literal character sequence. -/
def plit : List Char → Pc Unit
  | [], s => [((), s)]
  | _ :: _, [] => []
  | c :: w, d :: t => if c = d then plit w t else []

/-- A single character from a class. -/
def pcls {α : Type} (ok : Char → Bool) (f : Char → α) : Pc α
  | [] => []
  | c :: t => if ok c then [(f c, t)] else []

/-- Greedy `+` over a character class: every nonempty matching prefix,
longest first. -/
def runSplits (ok : Char → Bool) : Pc (List Char)
  | [] => []
  | c :: cs =>
    if ok c then ((runSplits ok cs).map fun p => (c :: p.1, p.2)) ++ [([c], cs)]
    else []

/-- Greedy `*` over a character class: every matching prefix, longest first. -/
def starSplits (ok : Char → Bool) (s : List Char) : List (List Char × List Char) :=
  runSplits ok s ++ [([], s)]

/-- Greedy `?`: try the group, then skipping it. -/
def popt {α : Type} (p : Pc α) : Pc (Option α) :=
  fun s => ((p s).map fun ar => (some ar.1, ar.2)) ++ [(none, s)]

/-- End-of-input anchor `$`. -/
def pend : Pc Unit
  | [] => [((), [])]
  | _ :: _ => []

/-! Outcome-membership characterizations of the combinators. -/

theorem mem_pbind {α β : Type} {p : Pc α} {f : α → Pc β} {x : β × List Char}
    {s : List Char} : x ∈ pbind p f s ↔ ∃ a r, (a, r) ∈ p s ∧ x ∈ f a r := by
  simp only [pbind, List.mem_flatMap]
  constructor
  · rintro ⟨⟨a, r⟩, h1, h2⟩; exact ⟨a, r, h1, h2⟩
  · rintro ⟨a, r, h1, h2⟩; exact ⟨⟨a, r⟩, h1, h2⟩

theorem mem_ppure {α : Type} {a x : α} {rest s : List Char} :
    (x, rest) ∈ ppure a s ↔ x = a ∧ rest = s := by
  simp only [ppure, List.mem_singleton, Prod.mk.injEq]

theorem mem_plit {w : List Char} : ∀ {s rest : List Char} {u : Unit},
    (u, rest) ∈ plit w s ↔ s = w ++ rest := by
  induction w with
  | nil =>
    intro s rest u
    simp only [plit, List.mem_singleton, Prod.mk.injEq, true_and, List.nil_append]
    exact eq_comm
  | cons c w ih =>
    intro s rest u
    cases s with
    | nil => simp [plit]
    | cons d t =>
      simp only [plit]
      by_cases hcd : c = d
      · subst hcd
        rw [if_pos rfl]
        simp only [ih, List.cons_append, List.cons.injEq, true_and]
      · rw [if_neg hcd]
        simp only [List.not_mem_nil, false_iff, List.cons_append]
        intro heq
        injection heq with h1 _
        exact hcd h1.symm

theorem mem_pcls {α : Type} {ok : Char → Bool} {f : Char → α} {x : α}
    {rest s : List Char} :
    (x, rest) ∈ pcls ok f s ↔ ∃ c, s = c :: rest ∧ ok c = true ∧ x = f c := by
  cases s with
  | nil => simp [pcls]
  | cons c t =>
    simp only [pcls]
    by_cases h : ok c
    · rw [if_pos h]
      simp only [List.mem_singleton, Prod.mk.injEq]
      constructor
      · rintro ⟨hx, ht⟩
        exact ⟨c, by rw [ht], h, hx⟩
      · rintro ⟨c', heq, hok, hx⟩
        injection heq with h1 h2
        subst h1; subst h2
        exact ⟨hx, rfl⟩
    · rw [if_neg h]
      simp only [List.not_mem_nil, false_iff]
      rintro ⟨c', heq, hok, -⟩
      injection heq with h1 _
      subst h1
      exact h hok

theorem mem_runSplits {ok : Char → Bool} : ∀ {s t rest : List Char},
    (t, rest) ∈ runSplits ok s ↔ s = t ++ rest ∧ t ≠ [] ∧ ∀ c ∈ t, ok c = true := by
  intro s
  induction s with
  | nil =>
    intro t rest
    constructor
    · intro h; exact absurd h (List.not_mem_nil _)
    · rintro ⟨heq, hne, -⟩
      cases t with
      | nil => exact absurd rfl hne
      | cons a b => exact absurd heq (by simp)
  | cons c cs ih =>
    intro t rest
    simp only [runSplits]
    by_cases h : ok c
    · rw [if_pos h, List.mem_append, List.mem_singleton]
      constructor
      · intro hor
        rcases hor with hmap | hone
        · rw [List.mem_map] at hmap
          obtain ⟨⟨t', r'⟩, hmem, heq⟩ := hmap
          simp only [Prod.mk.injEq] at heq
          obtain ⟨ht, hr⟩ := heq
          subst ht; subst hr
          obtain ⟨hcs, -, hall⟩ := ih.mp hmem
          subst hcs
          refine ⟨rfl, by simp, ?_⟩
          intro d hd
          rcases List.mem_cons.mp hd with rfl | hd2
          · exact h
          · exact hall d hd2
        · simp only [Prod.mk.injEq] at hone
          obtain ⟨ht, hr⟩ := hone
          subst ht; subst hr
          refine ⟨rfl, by simp, ?_⟩
          intro d hd
          rcases List.mem_cons.mp hd with rfl | hd2
          · exact h
          · exact absurd hd2 (List.not_mem_nil _)
      · rintro ⟨heq, hne, hall⟩
        cases t with
        | nil => exact absurd rfl hne
        | cons t0 ts =>
          rw [List.cons_append] at heq
          injection heq with h1 h2
          subst h1
          cases ts with
          | nil =>
            right
            rw [List.nil_append] at h2
            rw [h2]
          | cons u us =>
            left
            rw [List.mem_map]
            refine ⟨(u :: us, rest), ih.mpr ⟨h2, by simp, ?_⟩, rfl⟩
            intro d hd
            exact hall d (List.mem_cons_of_mem _ hd)
    · rw [if_neg h]
      constructor
      · intro hmem; exact absurd hmem (List.not_mem_nil _)
      · rintro ⟨heq, hne, hall⟩
        cases t with
        | nil => exact absurd rfl hne
        | cons t0 ts =>
          rw [List.cons_append] at heq
          injection heq with h1 _
          subst h1
          exact absurd (hall c (List.mem_cons_self c ts)) h

theorem mem_starSplits {ok : Char → Bool} {s t rest : List Char} :
    (t, rest) ∈ starSplits ok s ↔ s = t ++ rest ∧ ∀ c ∈ t, ok c = true := by
  simp only [starSplits, List.mem_append, List.mem_singleton, mem_runSplits]
  constructor
  · rintro (⟨h1, -, h3⟩ | heq)
    · exact ⟨h1, h3⟩
    · simp only [Prod.mk.injEq] at heq
      obtain ⟨rfl, rfl⟩ := heq
      exact ⟨rfl, fun c hc => absurd hc (List.not_mem_nil _)⟩
  · rintro ⟨heq, hall⟩
    cases t with
    | nil =>
      right
      rw [List.nil_append] at heq
      rw [heq]
    | cons t0 ts => left; exact ⟨heq, by simp, hall⟩

theorem mem_popt {α : Type} {p : Pc α} {x : Option α} {rest s : List Char} :
    (x, rest) ∈ popt p s ↔ (∃ a, x = some a ∧ (a, rest) ∈ p s) ∨ (x = none ∧ rest = s) := by
  simp only [popt, List.mem_append, List.mem_map, List.mem_singleton]
  constructor
  · rintro (⟨⟨a, r⟩, hmem, heq⟩ | heq)
    · simp only [Prod.mk.injEq] at heq
      obtain ⟨hx, hr⟩ := heq
      subst hr
      exact Or.inl ⟨a, hx.symm, hmem⟩
    · simp only [Prod.mk.injEq] at heq
      exact Or.inr ⟨heq.1, heq.2⟩
  · rintro (⟨a, rfl, hmem⟩ | ⟨rfl, rfl⟩)
    · exact Or.inl ⟨(a, rest), hmem, rfl⟩
    · exact Or.inr rfl

theorem mem_pend {rest s : List Char} {u : Unit} :
    (u, rest) ∈ pend s ↔ s = [] ∧ rest = [] := by
  cases s <;> simp [pend]

/-! ### The seven shape recognizers of `parseAndExecuteQuery`

Each definition is the direct transcription of the regular expression the
source tests, in source order.  Captures are kept as raw character lists;
the numeric conversions (`parseInt`) happen at the use sites, as in the
source. -/

/-- `\s+` -/
def wsP : Pc (List Char) := runSplits isSpaceCh
/-- `\s*` -/
def ws0P : Pc (List Char) := starSplits isSpaceCh
/-- `(\w+)` -/
def wordP : Pc (List Char) := runSplits isWordCh
/-- `(\d+)` -/
def digitsP : Pc (List Char) := runSplits isDigitCh

/-- `(?:\s+limit\s+(\d+))?` -/
def limitP : Pc (List Char) :=
  pbind wsP fun _ => pbind (plit "limit".toList) fun _ =>
  pbind wsP fun _ => digitsP

/-- `(?:\s*;)?` -/
def semiOptP : Pc (Option Unit) :=
  popt (pbind ws0P fun _ => plit [';'])

/-- `(?:\s+limit\s+(\d+))?(?:\s*;)?$` — the shared tail of recognizers
1, 3, 4 and 5; yields the optional limit capture. -/
def tailP : Pc (Option (List Char)) :=
  pbind (popt limitP) fun lim => pbind semiOptP fun _ =>
  pbind pend fun _ => ppure lim

/-- Recognizer 1: `/^select\s+\*\s+from\s+(\w+)(?:\s+limit\s+(\d+))?(?:\s*;)?$/` -/
def simpleSelectRe : Pc (List Char × Option (List Char)) :=
  pbind (plit "select".toList) fun _ => pbind wsP fun _ =>
  pbind (plit ['*']) fun _ => pbind wsP fun _ =>
  pbind (plit "from".toList) fun _ => pbind wsP fun _ =>
  pbind wordP fun tbl => pbind tailP fun lim => ppure (tbl, lim)

def simpleSelectMatch (s : List Char) : Option (List Char × Option (List Char)) :=
  ((simpleSelectRe s).head?).map (·.1)

/-- Recognizer 2: `/^select\s+count\(\*\)\s*(?:as\s+(\w+)\s+)?from\s+(\w+)(?:\s*;)?$/` -/
def countRe : Pc (Option (List Char) × List Char) :=
  pbind (plit "select".toList) fun _ => pbind wsP fun _ =>
  pbind (plit "count(*)".toList) fun _ => pbind ws0P fun _ =>
  pbind (popt (pbind (plit "as".toList) fun _ => pbind wsP fun _ =>
               pbind wordP fun a => pbind wsP fun _ => ppure a)) fun aliasC =>
  pbind (plit "from".toList) fun _ => pbind wsP fun _ =>
  pbind wordP fun tbl => pbind semiOptP fun _ => pbind pend fun _ =>
  ppure (aliasC, tbl)

def countMatch (s : List Char) : Option (Option (List Char) × List Char) :=
  ((countRe s).head?).map (·.1)

/-- Recognizer 3:
`/^select\s+\*\s+from\s+(\w+)\s+where\s+(\w+)\s*=\s*'([^']+)'(?:\s+limit\s+(\d+))?(?:\s*;)?$/` -/
def whereStringRe : Pc (List Char × List Char × List Char × Option (List Char)) :=
  pbind (plit "select".toList) fun _ => pbind wsP fun _ =>
  pbind (plit ['*']) fun _ => pbind wsP fun _ =>
  pbind (plit "from".toList) fun _ => pbind wsP fun _ =>
  pbind wordP fun tbl => pbind wsP fun _ =>
  pbind (plit "where".toList) fun _ => pbind wsP fun _ =>
  pbind wordP fun col => pbind ws0P fun _ =>
  pbind (plit ['=']) fun _ => pbind ws0P fun _ =>
  pbind (plit [quoteCh]) fun _ =>
  pbind (runSplits (fun c => c ≠ quoteCh)) fun v =>
  pbind (plit [quoteCh]) fun _ =>
  pbind tailP fun lim => ppure (tbl, col, v, lim)

def whereStringMatch (s : List Char) :
    Option (List Char × List Char × List Char × Option (List Char)) :=
  ((whereStringRe s).head?).map (·.1)

/-- Recognizer 4:
`/^select\s+\*\s+from\s+(\w+)\s+where\s+(\w+)\s*=\s*(\d+)(?:\s+limit\s+(\d+))?(?:\s*;)?$/` -/
def whereNumRe : Pc (List Char × List Char × List Char × Option (List Char)) :=
  pbind (plit "select".toList) fun _ => pbind wsP fun _ =>
  pbind (plit ['*']) fun _ => pbind wsP fun _ =>
  pbind (plit "from".toList) fun _ => pbind wsP fun _ =>
  pbind wordP fun tbl => pbind wsP fun _ =>
  pbind (plit "where".toList) fun _ => pbind wsP fun _ =>
  pbind wordP fun col => pbind ws0P fun _ =>
  pbind (plit ['=']) fun _ => pbind ws0P fun _ =>
  pbind digitsP fun v =>
  pbind tailP fun lim => ppure (tbl, col, v, lim)

def whereNumMatch (s : List Char) :
    Option (List Char × List Char × List Char × Option (List Char)) :=
  ((whereNumRe s).head?).map (·.1)

/-- Recognizer 5:
`/^select\s+([^*][^from]+)\s+from\s+(\w+)(?:\s+limit\s+(\d+))?(?:\s*;)?$/`
(`[^from]` is the character class excluding the letters f, r, o, m). -/
def selectColumnsRe : Pc (List Char × List Char × Option (List Char)) :=
  pbind (plit "select".toList) fun _ => pbind wsP fun _ =>
  pbind (pcls (fun c => c ≠ '*') id) fun c0 =>
  pbind (runSplits (fun c => !(c = 'f' || c = 'r' || c = 'o' || c = 'm'))) fun cs =>
  pbind wsP fun _ =>
  pbind (plit "from".toList) fun _ => pbind wsP fun _ =>
  pbind wordP fun tbl => pbind tailP fun lim => ppure (c0 :: cs, tbl, lim)

def selectColumnsMatch (s : List Char) :
    Option (List Char × List Char × Option (List Char)) :=
  ((selectColumnsRe s).head?).map (·.1)

/-- Recognizer 6:
`/^select\s+(\w+),\s*count\(\*\)\s*(?:as\s+(\w+))?\s+from\s+(\w+)\s+group\s+by\s+(\w+)$/` -/
def groupByRe : Pc (List Char × Option (List Char) × List Char × List Char) :=
  pbind (plit "select".toList) fun _ => pbind wsP fun _ =>
  pbind wordP fun gcol => pbind (plit [',']) fun _ => pbind ws0P fun _ =>
  pbind (plit "count(*)".toList) fun _ => pbind ws0P fun _ =>
  pbind (popt (pbind (plit "as".toList) fun _ => pbind wsP fun _ => wordP)) fun aliasC =>
  pbind wsP fun _ =>
  pbind (plit "from".toList) fun _ => pbind wsP fun _ =>
  pbind wordP fun tbl => pbind wsP fun _ =>
  pbind (plit "group".toList) fun _ => pbind wsP fun _ =>
  pbind (plit "by".toList) fun _ => pbind wsP fun _ =>
  pbind wordP fun gbcol => pbind pend fun _ =>
  ppure (gcol, aliasC, tbl, gbcol)

def groupByMatch (s : List Char) :
    Option (List Char × Option (List Char) × List Char × List Char) :=
  ((groupByRe s).head?).map (·.1)

/-- Recognizer 7, body of the unanchored `/select.*\*.*from\s+(\w+)/`. -/
def basicSelectRe : Pc (List Char) :=
  pbind (plit "select".toList) fun _ =>
  pbind (starSplits isDotCh) fun _ =>
  pbind (plit ['*']) fun _ =>
  pbind (starSplits isDotCh) fun _ =>
  pbind (plit "from".toList) fun _ => pbind wsP fun _ => wordP

/-- Unanchored search: try each start position left to right (JS
`String.prototype.match` with an unanchored regex). -/
def searchPc {α : Type} (p : Pc α) : List Char → Option α
  | [] => ((p []).head?).map (·.1)
  | c :: t =>
    match (p (c :: t)).head? with
    | some x => some x.1
    | none => searchPc p t

def basicSelectMatch (s : List Char) : Option (List Char) :=
  searchPc basicSelectRe s

/-! ### The backend (Supabase client) and the execution pipeline

The Supabase client is an external collaborator; it is modelled as a record
of the query-builder operations the engine uses, over an abstract scalar
type `V` (a JS object key compares scalars by their string coercion, which
is equality on a typed column; here that is the decidable equality of `V`).
Every execution function returns the backend calls it issued alongside its
result, so that claims about which calls are made are directly statable. -/

/-- The value compared by `.eq(column, value)`: a quoted string literal or a
numeric literal (recognizers 3 and 4). -/
inductive EqVal where
  | strV (v : List Char)
  | numV (n : Nat)
deriving DecidableEq

/-- A JSON value in a result row: a scalar from the store or a number
computed by the engine. -/
inductive JsVal (V : Type) where
  | scalar (v : V)
  | num (n : Nat)
deriving DecidableEq

/-- A result row: a flat mapping from field name to value. -/
abbrev Row (V : Type) := List (List Char × JsVal V)

/-- One backend round trip. -/
inductive BackendCall where
  | rpcCall (sql : List Char)
  | selectAllCall (table : List Char) (limit : Option Nat)
  | countCall (table : List Char)
  | selectEqCall (table col : List Char) (v : EqVal) (limit : Option Nat)
  | selectColsCall (cols table : List Char) (limit : Option Nat)
  | columnValuesCall (table col : List Char)
deriving DecidableEq

/-- The Supabase client operations used by `dbHelpers.js`.  Errors carry
their message text. -/
structure SupabaseClient (V : Type) where
  /-- `client.rpc('execute_sql', { sql_query })`. -/
  rpcExecuteSql : List Char → Except (List Char) (List (Row V))
  /-- `client.from(t).select('*')` with an optional `.limit(n)`. -/
  selectStar : List Char → Option Nat → Except (List Char) (List (Row V))
  /-- `client.from(t).select('*', { count: 'exact', head: true })`. -/
  selectCount : List Char → Except (List Char) Nat
  /-- `client.from(t).select('*').eq(col, v)` with an optional `.limit(n)`. -/
  selectStarEq : List Char → List Char → EqVal → Option Nat →
    Except (List Char) (List (Row V))
  /-- `client.from(t).select(columns)` with an optional `.limit(n)`. -/
  selectColumnsFrom : List Char → List Char → Option Nat →
    Except (List Char) (List (Row V))
  /-- `client.from(t).select(col)`, projected to the column's values. -/
  selectColumnValues : List Char → List Char → Except (List Char) (List V)

/-- `const limit = m ? parseInt(m) : undefined; if (limit) qb.limit(limit)`:
the limit is applied only when present and truthy (`0` is falsy in JS). -/
def jsLimit (lim : Option (List Char)) : Option Nat :=
  match lim with
  | some ds => if natOfDigits ds = 0 then none else some (natOfDigits ds)
  | none => none

/-- `countMatch[1] || 'count'` / `groupByMatch[2] || 'count'`. -/
def aliasOrCount (a : Option (List Char)) : List Char :=
  a.getD "count".toList

/-- Client-side GROUP BY aggregation state:
`grouped[key] = (grouped[key] || 0) + 1` over a JS object, which keeps the
first-insertion position of each key. -/
def bumpKey {V : Type} [DecidableEq V] : List (V × Nat) → V → List (V × Nat)
  | [], k => [(k, 1)]
  | (k', n) :: t, k => if k = k' then (k', n + 1) :: t else (k', n) :: bumpKey t k

/-- The `grouped` object after `data.forEach(...)`: per-key occurrence
counts in first-insertion order. -/
def groupedCounts {V : Type} [DecidableEq V] (vals : List V) : List (V × Nat) :=
  vals.foldl bumpKey []

/-- `Object.entries(grouped).map(([key, count]) => ({ [groupColumn]: key, [countAlias]: count }))`. -/
def groupedRows {V : Type} [DecidableEq V] (gcol aliasName : List Char)
    (vals : List V) : List (Row V) :=
  (groupedCounts vals).map fun p => [(gcol, JsVal.scalar p.1), (aliasName, JsVal.num p.2)]

/-- The message of the `UnsupportedPattern` error thrown at the end of
`parseAndExecuteQuery` (source line 470); `query` is the original argument. -/
def unsupportedMessage (query : List Char) : List Char :=
  "Query pattern not supported via Supabase client. Query: \"".toList ++ query ++
  "\". Install RPC function for complex queries or check query syntax.".toList

/-- An execution outcome: the rows or an error message, plus the backend
calls issued. -/
abbrev ExecOutcome (V : Type) := Except (List Char) (List (Row V)) × List BackendCall

/-- The last-resort branch of `parseAndExecuteQuery` (source lines 447-471):
the loose `SELECT *` recognizer, else the `UnsupportedPattern` error. -/
def tryBasicSelect {V : Type} (client : SupabaseClient V)
    (query lowerQuery : List Char) : ExecOutcome V :=
  match basicSelectMatch lowerQuery with
  | some tbl => (client.selectStar tbl none, [BackendCall.selectAllCall tbl none])
  | none => (Except.error (unsupportedMessage query), [])

/-- `parseAndExecuteQuery(query, client)` (source lines 323-471): lower-case
and trim, then try the seven recognizers in source order; the first branch
whose condition holds executes and returns. -/
def parseAndExecuteQuery {V : Type} [DecidableEq V] (client : SupabaseClient V)
    (query : List Char) : ExecOutcome V :=
  let lowerQuery := trimChars (query.map toLowerCh)
  match simpleSelectMatch lowerQuery with
  | some (tbl, lim) =>
    (client.selectStar tbl (jsLimit lim), [BackendCall.selectAllCall tbl (jsLimit lim)])
  | none =>
  match countMatch lowerQuery with
  | some (aliasC, tbl) =>
    ((client.selectCount tbl).map fun n => [[(aliasOrCount aliasC, JsVal.num n)]],
     [BackendCall.countCall tbl])
  | none =>
  match whereStringMatch lowerQuery with
  | some (tbl, col, v, lim) =>
    (client.selectStarEq tbl col (EqVal.strV v) (jsLimit lim),
     [BackendCall.selectEqCall tbl col (EqVal.strV v) (jsLimit lim)])
  | none =>
  match whereNumMatch lowerQuery with
  | some (tbl, col, v, lim) =>
    (client.selectStarEq tbl col (EqVal.numV (natOfDigits v)) (jsLimit lim),
     [BackendCall.selectEqCall tbl col (EqVal.numV (natOfDigits v)) (jsLimit lim)])
  | none =>
  match selectColumnsMatch lowerQuery with
  | some (cols, tbl, lim) =>
    (client.selectColumnsFrom (trimChars cols) tbl (jsLimit lim),
     [BackendCall.selectColsCall (trimChars cols) tbl (jsLimit lim)])
  | none =>
  match groupByMatch lowerQuery with
  | some (gcol, aliasC, tbl, gbcol) =>
    if gcol = gbcol then
      ((client.selectColumnValues tbl gcol).map fun vals =>
         groupedRows gcol (aliasOrCount aliasC) vals,
       [BackendCall.columnValuesCall tbl gcol])
    else tryBasicSelect client query lowerQuery
  | none => tryBasicSelect client query lowerQuery

/-- The classifier substrings and sentinel messages of
`executeViaSupabaseRPC` (source lines 277-304), and the outer catch's
message prefix (line 316). -/
def fnTok : List Char := "function".toList

/-- `does not exist`. -/
def dneTok : List Char := "does not exist".toList

/-- `syntax error`. -/
def synTok : List Char := "syntax error".toList

/-- `RPC_NOT_AVAILABLE`. -/
def rnaTok : List Char := "RPC_NOT_AVAILABLE".toList

/-- `RPC_SYNTAX_ERROR`. -/
def rseTok : List Char := "RPC_SYNTAX_ERROR".toList

/-- `Query execution failed: `. -/
def qefHeader : List Char := "Query execution failed: ".toList

/-- The substring tests of `executeViaSupabaseRPC`'s error classification. -/
def fallbackTriggered (msg : List Char) : Bool :=
  containsSub fnTok msg || containsSub dneTok msg || containsSub synTok msg

/-- `executeViaSupabaseRPC(query, client)` (source lines 262-318): try the
`execute_sql` RPC on `query.trim().replace(/;+$/, '')`; on an error whose
(possibly reclassified) message equals `RPC_NOT_AVAILABLE` or
`RPC_SYNTAX_ERROR` or contains `function`, `does not exist` or
`syntax error`, fall back to `parseAndExecuteQuery`; other errors
propagate.  The outer catch prefixes every error with
`Query execution failed: `. -/
def executeViaSupabaseRPC {V : Type} [DecidableEq V] (client : SupabaseClient V)
    (query : List Char) : ExecOutcome V :=
  let cleanedQuery := stripTrailingSemis (trimChars query)
  let inner : ExecOutcome V :=
    match client.rpcExecuteSql cleanedQuery with
    | Except.ok data => (Except.ok data, [BackendCall.rpcCall cleanedQuery])
    | Except.error msg =>
      let m :=
        if containsSub fnTok msg && containsSub dneTok msg then rnaTok
        else if containsSub synTok msg then rseTok
        else msg
      if m = rnaTok || m = rseTok || containsSub fnTok m ||
         containsSub dneTok m || containsSub synTok m then
        let fb := parseAndExecuteQuery client query
        (fb.1, BackendCall.rpcCall cleanedQuery :: fb.2)
      else (Except.error m, [BackendCall.rpcCall cleanedQuery])
  match inner with
  | (Except.ok d, calls) => (Except.ok d, calls)
  | (Except.error msg, calls) => (Except.error (qefHeader ++ msg), calls)

/-- The fixed mutating-keyword list of `executeDbQuery` (source line 236). -/
def forbidden : List (List Char) :=
  ["delete".toList, "update".toList, "insert".toList, "drop".toList,
   "alter".toList, "create".toList, "truncate".toList]

/-- Rejection message for a query that does not start with `select`. -/
def notReadOnlyMsg : List Char :=
  "SQL handler only supports SELECT statements for read.".toList

/-- Rejection message for a query containing a forbidden keyword. -/
def forbiddenKeywordMsg : List Char :=
  "SQL contains forbidden keywords for security.".toList

/-- Rejection message for multiple SQL statements. -/
def multipleStatementsMsg : List Char :=
  "Multiple SQL statements are not allowed for security.".toList

/-- Error when no Supabase client is configured. -/
def noClientMsg : List Char :=
  ("Supabase client not available. Please check your Supabase configuration " ++
   "and call initializeDatabase first.").toList

/-- The cleaned text of `executeDbQuery`:
`generatedQuery.trim().replace(/;+$/, '').trim()`. -/
def cleanedText (generatedQuery : List Char) : List Char :=
  trimChars (stripTrailingSemis (trimChars generatedQuery))

/-- `executeDbQuery(generatedQuery)` (source lines 224-255): trim, strip
trailing semicolons, then the three security checks (SELECT-only, forbidden
keywords by substring, multiple statements), then dispatch to the RPC path.
`client` is `getSupabaseClient()`'s result (`none` when unconfigured). -/
def executeDbQuery {V : Type} [DecidableEq V] (client : Option (SupabaseClient V))
    (generatedQuery : List Char) : ExecOutcome V :=
  let trimmedQuery := cleanedText generatedQuery
  let lowerCaseQuery := trimmedQuery.map toLowerCh
  if !("select".toList.isPrefixOf lowerCaseQuery) then
    (Except.error notReadOnlyMsg, [])
  else if forbidden.any (fun w => containsSub w lowerCaseQuery) then
    (Except.error forbiddenKeywordMsg, [])
  else if containsSub [';'] trimmedQuery &&
      ((splitOnCh ';' trimmedQuery).filter
        (fun s => !(trimChars s).isEmpty)).length > 1 then
    (Except.error multipleStatementsMsg, [])
  else
    match client with
    | none => (Except.error noClientMsg, [])
    | some c => executeViaSupabaseRPC c trimmedQuery

/-! ### The ordered pattern-rule list (spec §4.3)

The specification describes the fallback translator as an immutable list of
`(predicate, constructor)` rules evaluated in a fixed priority order with a
first-match-wins tie-break.  `patternRules` is that list, in the spec's
order; `firstMatchedPlan` is its first-match semantics.  The refinement
lemma `parseAndExecuteQuery_eq_firstMatch` connects the source's
if-cascade to it. -/

/-- A structured backend call descriptor: what a fallback recognizer
translates the query into (captures kept raw). -/
inductive StructuredPlan where
  | simpleSelect (table : List Char) (lim : Option (List Char))
  | countAll (aliasName : Option (List Char)) (table : List Char)
  | whereStringEq (table col v : List Char) (lim : Option (List Char))
  | whereNumEq (table col v : List Char) (lim : Option (List Char))
  | columnList (cols table : List Char) (lim : Option (List Char))
  | groupCount (gcol : List Char) (aliasName : Option (List Char)) (table : List Char)
  | basicSelect (table : List Char)
deriving DecidableEq

/-- The recognizers as an ordered rule list: (1) select-all with optional
limit, (2) count-all with optional alias, (3) string-equality predicate,
(4) numeric-equality predicate, (5) explicit column list, (6) same-column
group-count, (7) loose select-all. -/
def patternRules : List (List Char → Option StructuredPlan) :=
  [fun s => (simpleSelectMatch s).map fun x => StructuredPlan.simpleSelect x.1 x.2,
   fun s => (countMatch s).map fun x => StructuredPlan.countAll x.1 x.2,
   fun s => (whereStringMatch s).map fun x =>
     StructuredPlan.whereStringEq x.1 x.2.1 x.2.2.1 x.2.2.2,
   fun s => (whereNumMatch s).map fun x =>
     StructuredPlan.whereNumEq x.1 x.2.1 x.2.2.1 x.2.2.2,
   fun s => (selectColumnsMatch s).map fun x =>
     StructuredPlan.columnList x.1 x.2.1 x.2.2,
   fun s => (groupByMatch s).bind fun x =>
     if x.1 = x.2.2.2 then some (StructuredPlan.groupCount x.1 x.2.1 x.2.2.1) else none,
   fun s => (basicSelectMatch s).map StructuredPlan.basicSelect]

/-- First-match-wins evaluation of the rule list on a cleaned input. -/
def firstMatchedPlan (s : List Char) : Option StructuredPlan :=
  patternRules.findSome? (fun r => r s)

/-- Issue the structured backend call a plan describes. -/
def execPlan {V : Type} [DecidableEq V] (client : SupabaseClient V) :
    StructuredPlan → ExecOutcome V
  | StructuredPlan.simpleSelect t lim =>
    (client.selectStar t (jsLimit lim), [BackendCall.selectAllCall t (jsLimit lim)])
  | StructuredPlan.countAll a t =>
    ((client.selectCount t).map fun n => [[(aliasOrCount a, JsVal.num n)]],
     [BackendCall.countCall t])
  | StructuredPlan.whereStringEq t c v lim =>
    (client.selectStarEq t c (EqVal.strV v) (jsLimit lim),
     [BackendCall.selectEqCall t c (EqVal.strV v) (jsLimit lim)])
  | StructuredPlan.whereNumEq t c v lim =>
    (client.selectStarEq t c (EqVal.numV (natOfDigits v)) (jsLimit lim),
     [BackendCall.selectEqCall t c (EqVal.numV (natOfDigits v)) (jsLimit lim)])
  | StructuredPlan.columnList cols t lim =>
    (client.selectColumnsFrom (trimChars cols) t (jsLimit lim),
     [BackendCall.selectColsCall (trimChars cols) t (jsLimit lim)])
  | StructuredPlan.groupCount g a t =>
    ((client.selectColumnValues t g).map fun vals => groupedRows g (aliasOrCount a) vals,
     [BackendCall.columnValuesCall t g])
  | StructuredPlan.basicSelect t =>
    (client.selectStar t none, [BackendCall.selectAllCall t none])

/-- The source's recognizer cascade implements first-match-wins evaluation
of the ordered rule list. -/
theorem parseAndExecuteQuery_eq_firstMatch {V : Type} [DecidableEq V]
    (client : SupabaseClient V) (query : List Char) :
    parseAndExecuteQuery client query =
      match firstMatchedPlan (trimChars (query.map toLowerCh)) with
      | some p => execPlan client p
      | none => (Except.error (unsupportedMessage query), []) := by
  unfold parseAndExecuteQuery firstMatchedPlan patternRules
  set lq := trimChars (query.map toLowerCh) with hlq
  cases h1 : simpleSelectMatch lq with
  | some x =>
    obtain ⟨t, lim⟩ := x
    simp [h1, execPlan, List.findSome?_cons]
  | none =>
  cases h2 : countMatch lq with
  | some x =>
    obtain ⟨a, t⟩ := x
    simp [h1, h2, execPlan, List.findSome?_cons]
  | none =>
  cases h3 : whereStringMatch lq with
  | some x =>
    obtain ⟨t, c, v, lim⟩ := x
    simp [h1, h2, h3, execPlan, List.findSome?_cons]
  | none =>
  cases h4 : whereNumMatch lq with
  | some x =>
    obtain ⟨t, c, v, lim⟩ := x
    simp [h1, h2, h3, h4, execPlan, List.findSome?_cons]
  | none =>
  cases h5 : selectColumnsMatch lq with
  | some x =>
    obtain ⟨cols, t, lim⟩ := x
    simp [h1, h2, h3, h4, h5, execPlan, List.findSome?_cons]
  | none =>
  cases h6 : groupByMatch lq with
  | some x =>
    obtain ⟨g, a, t, gb⟩ := x
    by_cases hg : g = gb
    · simp [h1, h2, h3, h4, h5, h6, hg, execPlan, List.findSome?_cons]
    · cases h7 : basicSelectMatch lq with
      | some t7 =>
        simp [h1, h2, h3, h4, h5, h6, h7, hg, execPlan, List.findSome?_cons,
          tryBasicSelect]
      | none =>
        simp [h1, h2, h3, h4, h5, h6, h7, hg, execPlan, List.findSome?_cons,
          tryBasicSelect]
  | none =>
  cases h7 : basicSelectMatch lq with
  | some t7 =>
    simp [h1, h2, h3, h4, h5, h6, h7, execPlan, List.findSome?_cons, tryBasicSelect]
  | none =>
    simp [h1, h2, h3, h4, h5, h6, h7, execPlan, List.findSome?_cons, tryBasicSelect]

/-! ### Witness backends -/

/-- A trivially succeeding client (empty store) used in witnesses. -/
def okClient : SupabaseClient String where
  rpcExecuteSql := fun _ => Except.ok []
  selectStar := fun _ _ => Except.ok []
  selectCount := fun _ => Except.ok 0
  selectStarEq := fun _ _ _ _ => Except.ok []
  selectColumnsFrom := fun _ _ _ => Except.ok []
  selectColumnValues := fun _ _ => Except.ok []

/-- Modelled from the spec: "a mutating keyword ... appears as a whole word
(word-boundary match)" — `w` occurs in `s` at a position whose neighbouring
characters (when they exist) are not word characters. -/
def wordBoundaryOccurs (w s : List Char) : Bool :=
  (List.range (s.length + 1)).any fun i =>
    w.isPrefixOf (s.drop i) &&
    !(isWordCh ((s.take i).getLastD ' ')) &&
    !(isWordCh (s.getD (i + w.length) ' '))

/-! ### Claim theorems: the validation gate -/

/-- **C1.** Divergence witness: on the input `select created_at from users`
no mutating keyword occurs as a whole word (word-boundary match), yet
`executeDbQuery` rejects it with the `ForbiddenKeyword` error, because the
source tests `lowerCaseQuery.includes(word)` — plain substring containment —
and `create` is a substring of the column name `created_at`. -/
theorem forbiddenKeyword_substring_false_positive :
    (forbidden.all fun w =>
      !(wordBoundaryOccurs w
        ((cleanedText "select created_at from users".toList).map toLowerCh))) = true ∧
    executeDbQuery (some okClient) "select created_at from users".toList =
      (Except.error forbiddenKeywordMsg, []) :=
  ⟨by decide, by rfl⟩

/-- **C5 (amended).** An input that is empty after trimming is rejected with
no backend call, but with the same `NotReadOnly` error used for inputs not
starting with `select` — there is no distinct `EmptyQuery` reason code. -/
theorem emptyQuery_rejected_as_notReadOnly {V : Type} [DecidableEq V]
    (client : Option (SupabaseClient V)) (q : List Char)
    (h : trimChars q = []) :
    executeDbQuery client q = (Except.error notReadOnlyMsg, []) := by
  have hc : cleanedText q = [] := by
    unfold cleanedText
    rw [h]
    rfl
  simp only [executeDbQuery, hc]
  rfl

/-- Witness for C5 (amended) at the whitespace-only input `"   "`. -/
theorem emptyQuery_rejected_as_notReadOnly_witness :
    trimChars "   ".toList = [] ∧
    executeDbQuery (some okClient) "   ".toList = (Except.error notReadOnlyMsg, []) :=
  ⟨by decide, emptyQuery_rejected_as_notReadOnly (some okClient) _ (by decide)⟩

/-- **C5 counterexample.** The claim asserts a distinct `EmptyQuery`
rejection; in fact the empty input is rejected with exactly the same error
value as the canonical `NotReadOnly` input `DROP TABLE users`. -/
theorem emptyQuery_not_distinct_from_notReadOnly :
    executeDbQuery (some okClient) "".toList = (Except.error notReadOnlyMsg, []) ∧
    executeDbQuery (some okClient) "DROP TABLE users".toList =
      (Except.error notReadOnlyMsg, []) :=
  ⟨by rfl, by rfl⟩

/-- **C6.** Any input whose cleaned, lower-cased text does not start with
`select` is rejected with the `NotReadOnly` error and no backend call, for
every backend. -/
theorem notReadOnly_rejection {V : Type} [DecidableEq V]
    (client : Option (SupabaseClient V)) (q : List Char)
    (h : "select".toList.isPrefixOf ((cleanedText q).map toLowerCh) = false) :
    executeDbQuery client q = (Except.error notReadOnlyMsg, []) := by
  simp only [executeDbQuery]
  rw [if_pos (show (!"select".toList.isPrefixOf (List.map toLowerCh (cleanedText q)))
    = true by rw [h]; rfl)]

/-- Witness for C6 at `DROP TABLE users` (which contains the forbidden
keyword `drop`, yet is rejected as `NotReadOnly`: the start-with-select
check precedes the forbidden-keyword check). -/
theorem notReadOnly_rejection_witness :
    "select".toList.isPrefixOf
      ((cleanedText "DROP TABLE users".toList).map toLowerCh) = false ∧
    containsSub "drop".toList
      ((cleanedText "DROP TABLE users".toList).map toLowerCh) = true ∧
    executeDbQuery (some okClient) "DROP TABLE users".toList =
      (Except.error notReadOnlyMsg, []) :=
  ⟨by decide, by decide,
   notReadOnly_rejection (some okClient) "DROP TABLE users".toList (by decide)⟩

/-- **C7 (amended).** An input that passes the select-prefix check and the
forbidden-keyword check, and whose cleaned text contains a terminator and
splits into more than one non-blank segment, is rejected with the
`MultipleStatements` error before any backend call. -/
theorem multipleStatements_rejection {V : Type} [DecidableEq V]
    (client : Option (SupabaseClient V)) (q : List Char)
    (h1 : "select".toList.isPrefixOf ((cleanedText q).map toLowerCh) = true)
    (h2 : (forbidden.any fun w => containsSub w ((cleanedText q).map toLowerCh)) = false)
    (h3 : containsSub [';'] (cleanedText q) = true)
    (h4 : 1 < ((splitOnCh ';' (cleanedText q)).filter
        (fun s => !(trimChars s).isEmpty)).length) :
    executeDbQuery client q = (Except.error multipleStatementsMsg, []) := by
  simp only [executeDbQuery]
  rw [if_neg (show ¬((!"select".toList.isPrefixOf (List.map toLowerCh (cleanedText q)))
        = true) by rw [h1]; decide)]
  rw [if_neg (show ¬((forbidden.any fun w =>
        containsSub w (List.map toLowerCh (cleanedText q))) = true) by rw [h2]; decide)]
  rw [if_pos (show (containsSub [';'] (cleanedText q) &&
    decide ((List.filter (fun s => !(trimChars s).isEmpty)
      (splitOnCh ';' (cleanedText q))).length > 1)) = true by
        rw [h3, Bool.true_and]; exact decide_eq_true h4)]

/-- Witness for C7 (amended) at `select 1; select 2`. -/
theorem multipleStatements_rejection_witness :
    executeDbQuery (some okClient) "select 1; select 2".toList =
      (Except.error multipleStatementsMsg, []) :=
  multipleStatements_rejection (some okClient) "select 1; select 2".toList
    (by decide) (by decide) (by decide) (by decide)

/-- **C7 counterexample.** Two inputs each containing an internal terminator
followed by non-whitespace content, neither of which is rejected with
`MultipleStatements` as the claim requires: `select 1; drop table t` is
rejected earlier by the (substring) forbidden-keyword check, and for
`select 1;; ;;` — cleaned to `select 1;;`, whose first terminator is
followed by the non-whitespace `;` — only one `;`-separated segment is
non-blank, so validation passes and a backend call is issued. -/
theorem multipleStatements_claim_fails :
    executeDbQuery (some okClient) "select 1; drop table t".toList =
      (Except.error forbiddenKeywordMsg, []) ∧
    executeDbQuery (some okClient) "select 1;; ;;".toList =
      (Except.ok [], [BackendCall.rpcCall "select 1".toList]) :=
  ⟨by rfl, by rfl⟩

/-! ### Claim theorems: the dispatcher (C2) -/

/-- The condition under which an RPC-path error makes `executeViaSupabaseRPC`
fall back to `parseAndExecuteQuery`: the message contains `function`,
`does not exist` or `syntax error` as a substring, or is literally one of the
internal sentinels. -/
def rpcFallbackCondition (msg : List Char) : Bool :=
  msg = rnaTok || msg = rseTok || fallbackTriggered msg

/-- The outer catch of `executeViaSupabaseRPC`: failures are re-thrown with
the `Query execution failed: ` prefix. -/
def wrapFail {V : Type} : Except (List Char) (List (Row V)) →
    Except (List Char) (List (Row V))
  | Except.ok d => Except.ok d
  | Except.error e => Except.error (qefHeader ++ e)

/-- **C2 (amended).** When the RPC path fails with message `msg`, the
dispatcher falls back to the pattern translator — exactly once, with no
second RPC attempt — if and only if `rpcFallbackCondition msg` holds (the
message contains `function`, `does not exist` or `syntax error`, or equals
an internal sentinel); every other error propagates to the caller with the
prefix `Query execution failed: ` prepended to the backend's message (not
verbatim). -/
theorem rpcError_dispatch {V : Type} [DecidableEq V] (client : SupabaseClient V)
    (q msg : List Char)
    (h : client.rpcExecuteSql (stripTrailingSemis (trimChars q)) = Except.error msg) :
    executeViaSupabaseRPC client q =
      if rpcFallbackCondition msg = true then
        (wrapFail (parseAndExecuteQuery client q).1,
         BackendCall.rpcCall (stripTrailingSemis (trimChars q)) ::
           (parseAndExecuteQuery client q).2)
      else
        (Except.error (qefHeader ++ msg),
         [BackendCall.rpcCall (stripTrailingSemis (trimChars q))]) := by
  rcases hp : parseAndExecuteQuery client q with ⟨res, calls⟩
  simp only [executeViaSupabaseRPC, h, hp]
  cases hb1 : containsSub fnTok msg <;>
    cases hb2 : containsSub dneTok msg <;>
      cases hb3 : containsSub synTok msg
  · by_cases hmr : msg = rnaTok
    · subst hmr
      simp [hb1, hb2, hb3, rpcFallbackCondition, fallbackTriggered, wrapFail] <;>
        cases res <;> simp [wrapFail]
    · by_cases hms : msg = rseTok
      · subst hms
        simp [hb1, hb2, hb3, rpcFallbackCondition, fallbackTriggered, wrapFail] <;>
          cases res <;> simp [wrapFail]
      · simp [hb1, hb2, hb3, hmr, hms, rpcFallbackCondition, fallbackTriggered, wrapFail] <;>
          cases res <;> simp [wrapFail]
  all_goals (simp [hb1, hb2, hb3, rpcFallbackCondition, fallbackTriggered, wrapFail] <;>
    cases res <;> simp [wrapFail])

/-- A backend whose generic path reports a missing table (the Postgres
message contains `does not exist`) and whose structured path succeeds. -/
def missTableClient : SupabaseClient String where
  rpcExecuteSql := fun _ => Except.error "relation \"phantom\" does not exist".toList
  selectStar := fun _ _ => Except.ok []
  selectCount := fun _ => Except.ok 0
  selectStarEq := fun _ _ _ _ => Except.ok []
  selectColumnsFrom := fun _ _ _ => Except.ok []
  selectColumnValues := fun _ _ => Except.ok []

/-- A backend whose generic path fails with a message that indicates neither
a missing capability nor a syntax error. -/
def boomClient : SupabaseClient String where
  rpcExecuteSql := fun _ => Except.error "boom".toList
  selectStar := fun _ _ => Except.ok []
  selectCount := fun _ => Except.ok 0
  selectStarEq := fun _ _ _ _ => Except.ok []
  selectColumnsFrom := fun _ _ _ => Except.ok []
  selectColumnValues := fun _ _ => Except.ok []

/-- Witness for C2 (amended) at the missing-table backend. -/
theorem rpcError_dispatch_witness :
    executeViaSupabaseRPC missTableClient "select * from phantom".toList =
      if rpcFallbackCondition "relation \"phantom\" does not exist".toList = true then
        (wrapFail (parseAndExecuteQuery missTableClient "select * from phantom".toList).1,
         BackendCall.rpcCall
             (stripTrailingSemis (trimChars "select * from phantom".toList)) ::
           (parseAndExecuteQuery missTableClient "select * from phantom".toList).2)
      else
        (Except.error (qefHeader ++ "relation \"phantom\" does not exist".toList),
         [BackendCall.rpcCall
            (stripTrailingSemis (trimChars "select * from phantom".toList))]) :=
  rpcError_dispatch missTableClient "select * from phantom".toList
    "relation \"phantom\" does not exist".toList (by rfl)

/-! ### Run-alignment lemmas

Two decompositions of the same string into a character-class run preceded
by a character outside the class must agree.  These drive the
mutual-exclusivity arguments between recognizers (which recognizer can
match a given cleaned input). -/

/-- All characters of `l` satisfy the space class. -/
def spaceRun (l : List Char) : Prop := ∀ c ∈ l, isSpaceCh c = true

/-- All characters of `l` satisfy the word class. -/
def wordRun (l : List Char) : Prop := ∀ c ∈ l, isWordCh c = true

theorem isSpaceCh_not_word {c : Char} (h : isSpaceCh c = true) : isWordCh c = false := by
  cases hw : isWordCh c
  · rfl
  · rw [isWordCh_not_space hw] at h
    exact absurd h (by simp)

theorem reverse_ne_nil_cons {l : List Char} (h : l ≠ []) :
    ∃ c t, l.reverse = c :: t := by
  cases hc : l.reverse with
  | nil => exact absurd (by simpa using congrArg List.reverse hc) h
  | cons c t => exact ⟨c, t, rfl⟩

theorem runAlign {P : Char → Bool} : ∀ {a b : List Char} {x y : Char} {r t : List Char},
    (∀ c ∈ a, P c = true) → (∀ c ∈ b, P c = true) → P x = false → P y = false →
    a ++ x :: r = b ++ y :: t → a = b ∧ x = y ∧ r = t := by
  intro a
  induction a with
  | nil =>
    intro b x y r t _ hb hx hy heq
    cases b with
    | nil =>
      rw [List.nil_append, List.nil_append] at heq
      injection heq with h1 h2
      exact ⟨rfl, h1, h2⟩
    | cons b0 bs =>
      rw [List.nil_append, List.cons_append] at heq
      injection heq with h1 _
      subst h1
      rw [hb x (List.mem_cons_self x bs)] at hx
      exact absurd hx (by simp)
  | cons a0 as ih =>
    intro b x y r t ha hb hx hy heq
    cases b with
    | nil =>
      rw [List.nil_append, List.cons_append] at heq
      injection heq with h1 h2
      subst h1
      rw [ha a0 (List.mem_cons_self a0 as)] at hy
      exact absurd hy (by simp)
    | cons b0 bs =>
      rw [List.cons_append, List.cons_append] at heq
      injection heq with h1 h2
      subst h1
      obtain ⟨he, hxy, hrt⟩ := ih (fun c hc => ha c (List.mem_cons_of_mem _ hc))
        (fun c hc => hb c (List.mem_cons_of_mem _ hc)) hx hy h2
      exact ⟨by rw [he], hxy, hrt⟩

/-- `s` ends with a word run preceded by a whitespace run preceded by the
character `c` (the shared shape of the recognizers' endings: `c` is the
last letter of `from`, `limit` or `by`). -/
def endsWordAfter (c : Char) (s : List Char) : Prop :=
  ∃ u sp w, s = u ++ c :: sp ++ w ∧ spaceRun sp ∧ sp ≠ [] ∧ wordRun w ∧ w ≠ []

/-- `s` ends with a semicolon. -/
def endsSemiP (s : List Char) : Prop := ∃ u, s = u ++ [';']

/-- `s` ends with a single quote. -/
def endsQuoteP (s : List Char) : Prop := ∃ u, s = u ++ [quoteCh]

/-- `s` ends with a word run preceded by a possibly-empty whitespace run
preceded by `=` (recognizer 4 without limit or terminator). -/
def endsEqNum (s : List Char) : Prop :=
  ∃ u sp w, s = u ++ '=' :: sp ++ w ∧ spaceRun sp ∧ wordRun w ∧ w ≠ []

theorem endsWordAfter_clash {c1 c2 : Char} {s : List Char}
    (h1 : endsWordAfter c1 s) (h2 : endsWordAfter c2 s)
    (hc1 : isSpaceCh c1 = false) (hc2 : isSpaceCh c2 = false) : c1 = c2 := by
  obtain ⟨u, sp1, w1, he1, hs1, hp1, hw1, hn1⟩ := h1
  obtain ⟨v, sp2, w2, he2, hs2, hp2, hw2, hn2⟩ := h2
  obtain ⟨s1h, s1t, hse1⟩ := reverse_ne_nil_cons hp1
  obtain ⟨s2h, s2t, hse2⟩ := reverse_ne_nil_cons hp2
  have heq2 : w1.reverse ++ s1h :: (s1t ++ c1 :: u.reverse) =
      w2.reverse ++ s2h :: (s2t ++ c2 :: v.reverse) := by
    have h3 := congrArg List.reverse (he1.symm.trans he2)
    simp only [List.reverse_append, List.reverse_cons] at h3
    rw [hse1, hse2] at h3
    simpa [List.append_assoc] using h3
  have hs1h : isSpaceCh s1h = true := hs1 s1h (List.mem_reverse.mp (by
    rw [hse1]; exact List.mem_cons_self _ _))
  have hs2h : isSpaceCh s2h = true := hs2 s2h (List.mem_reverse.mp (by
    rw [hse2]; exact List.mem_cons_self _ _))
  obtain ⟨-, -, hrest⟩ := runAlign (P := isWordCh)
    (fun c hc => hw1 c (List.mem_reverse.mp hc))
    (fun c hc => hw2 c (List.mem_reverse.mp hc))
    (isSpaceCh_not_word hs1h) (isSpaceCh_not_word hs2h) heq2
  obtain ⟨-, hxy, -⟩ := runAlign (P := isSpaceCh)
    (fun c hc => hs1 c (List.mem_reverse.mp (by
      rw [hse1]; exact List.mem_cons_of_mem _ hc)))
    (fun c hc => hs2 c (List.mem_reverse.mp (by
      rw [hse2]; exact List.mem_cons_of_mem _ hc)))
    hc1 hc2 hrest
  exact hxy

theorem last_char_word {u v w : List Char} {c : Char} (hw : wordRun w) (hn : w ≠ [])
    (heq : u ++ [c] = v ++ w) : isWordCh c = true := by
  obtain ⟨wh, wt, hwe⟩ := reverse_ne_nil_cons hn
  have heq2 : c :: u.reverse = wh :: (wt ++ v.reverse) := by
    have h3 := congrArg List.reverse heq
    simp only [List.reverse_append, List.reverse_cons, List.reverse_nil,
      List.nil_append] at h3
    rw [hwe] at h3
    simpa [List.append_assoc] using h3
  injection heq2 with hch _
  subst hch
  exact hw c (List.mem_reverse.mp (by rw [hwe]; exact List.mem_cons_self _ _))

theorem endsSemi_not_endsWordAfter {c : Char} {s : List Char}
    (h1 : endsSemiP s) (h2 : endsWordAfter c s) : False := by
  obtain ⟨u, he1⟩ := h1
  obtain ⟨v, sp, w, he2, -, -, hw, hn⟩ := h2
  have hx : s = (v ++ c :: sp) ++ w := by simp [he2, List.append_assoc]
  have : isWordCh ';' = true := last_char_word hw hn (he1.symm.trans hx)
  exact absurd this (by decide)

theorem endsQuote_not_endsWordAfter {c : Char} {s : List Char}
    (h1 : endsQuoteP s) (h2 : endsWordAfter c s) : False := by
  obtain ⟨u, he1⟩ := h1
  obtain ⟨v, sp, w, he2, -, -, hw, hn⟩ := h2
  have hx : s = (v ++ c :: sp) ++ w := by simp [he2, List.append_assoc]
  have : isWordCh quoteCh = true := last_char_word hw hn (he1.symm.trans hx)
  exact absurd this (by decide)

theorem endsEqNum_not_endsWordAfter {c2 : Char} {s : List Char}
    (h1 : endsEqNum s) (h2 : endsWordAfter c2 s)
    (hc2s : isSpaceCh c2 = false) (hc2w : isWordCh c2 = true) : False := by
  obtain ⟨u, sp1, w1, he1, hs1, hw1, hn1⟩ := h1
  obtain ⟨v, sp2, w2, he2, hs2, hp2, hw2, hn2⟩ := h2
  obtain ⟨s2h, s2t, hse2⟩ := reverse_ne_nil_cons hp2
  have hs2h : isSpaceCh s2h = true := hs2 s2h (List.mem_reverse.mp (by
    rw [hse2]; exact List.mem_cons_self _ _))
  cases hsp : sp1 with
  | nil =>
    have heq2 : w1.reverse ++ '=' :: u.reverse =
        w2.reverse ++ s2h :: (s2t ++ c2 :: v.reverse) := by
      have h3 := congrArg List.reverse (he1.symm.trans he2)
      rw [hsp] at h3
      simp only [List.reverse_append, List.reverse_cons, List.reverse_nil] at h3
      rw [hse2] at h3
      simpa [List.append_assoc] using h3
    obtain ⟨-, hxy, -⟩ := runAlign (P := isWordCh)
      (fun c hc => hw1 c (List.mem_reverse.mp hc))
      (fun c hc => hw2 c (List.mem_reverse.mp hc))
      (by decide) (isSpaceCh_not_word hs2h) heq2
    rw [← hxy] at hs2h
    exact absurd hs2h (by decide)
  | cons sh st =>
    obtain ⟨s1h, s1t, hse1⟩ := reverse_ne_nil_cons
      (show sp1 ≠ [] by rw [hsp]; simp)
    have hs1h : isSpaceCh s1h = true := hs1 s1h (List.mem_reverse.mp (by
      rw [hse1]; exact List.mem_cons_self _ _))
    have heq2 : w1.reverse ++ s1h :: (s1t ++ '=' :: u.reverse) =
        w2.reverse ++ s2h :: (s2t ++ c2 :: v.reverse) := by
      have h3 := congrArg List.reverse (he1.symm.trans he2)
      simp only [List.reverse_append, List.reverse_cons] at h3
      rw [hse1, hse2] at h3
      simpa [List.append_assoc] using h3
    obtain ⟨-, -, hrest⟩ := runAlign (P := isWordCh)
      (fun c hc => hw1 c (List.mem_reverse.mp hc))
      (fun c hc => hw2 c (List.mem_reverse.mp hc))
      (isSpaceCh_not_word hs1h) (isSpaceCh_not_word hs2h) heq2
    obtain ⟨-, hxy, -⟩ := runAlign (P := isSpaceCh)
      (fun c hc => hs1 c (List.mem_reverse.mp (by
        rw [hse1]; exact List.mem_cons_of_mem _ hc)))
      (fun c hc => hs2 c (List.mem_reverse.mp (by
        rw [hse2]; exact List.mem_cons_of_mem _ hc)))
      (by decide) hc2s hrest
    rw [← hxy] at hc2w
    exact absurd hc2w (by decide)

/-! ### Decompositions of successful recognizer matches -/

/-- All characters of `l` are decimal digits. -/
def digitRun (l : List Char) : Prop := ∀ c ∈ l, isDigitCh c = true

theorem digitRun_word {l : List Char} (h : digitRun l) : wordRun l :=
  fun c hc => isDigitCh_word (h c hc)

/-- The `(?:\s*;)?$` tail: empty, or a whitespace run then a semicolon. -/
def semiTail (tl : List Char) : Prop :=
  tl = [] ∨ ∃ sp, tl = sp ++ [';'] ∧ spaceRun sp

/-- The `(?:\s+limit\s+(\d+))?(?:\s*;)?$` tail shape. -/
def limSemiTail (lim : Option (List Char)) (tl : List Char) : Prop :=
  (∃ spl spd dg tl2, lim = some dg ∧
      tl = spl ++ "limit".toList ++ spd ++ dg ++ tl2 ∧
      spaceRun spl ∧ spl ≠ [] ∧ spaceRun spd ∧ spd ≠ [] ∧
      digitRun dg ∧ dg ≠ [] ∧ semiTail tl2) ∨
  (lim = none ∧ semiTail tl)

theorem tailP_mem {pre rest : List Char} {lim : Option (List Char)}
    (h : (lim, rest) ∈ tailP pre) : rest = [] ∧ limSemiTail lim pre := by
  obtain ⟨a, r, hopt, h2⟩ := mem_pbind.mp h
  obtain ⟨b, r2, hsemi, h3⟩ := mem_pbind.mp h2
  obtain ⟨u, r3, hend, h4⟩ := mem_pbind.mp h3
  obtain ⟨hr2, hr3⟩ := mem_pend.mp hend
  obtain ⟨hlim, hrest⟩ := mem_ppure.mp h4
  subst hr3
  subst hrest
  subst hlim
  refine ⟨rfl, ?_⟩
  have hrsemi : semiTail r := by
    rcases mem_popt.mp hsemi with ⟨w, -, hmem⟩ | ⟨-, hr⟩
    · obtain ⟨sp, r4, hws, hpl⟩ := mem_pbind.mp hmem
      obtain ⟨hreq, hsp⟩ := mem_starSplits.mp hws
      have hr4 : r4 = [';'] ++ r2 := mem_plit.mp hpl
      right
      exact ⟨sp, by rw [hreq, hr4, hr2]; simp, hsp⟩
    · left
      rw [← hr]
      exact hr2
  rcases mem_popt.mp hopt with ⟨dg, ha, hmem⟩ | ⟨ha, hr⟩
  · left
    obtain ⟨sp1, r1, hws1, h5⟩ := mem_pbind.mp hmem
    obtain ⟨hpre1, hne1, hsp1⟩ := mem_runSplits.mp hws1
    obtain ⟨u2, r2', hpl, h6⟩ := mem_pbind.mp h5
    have hr1 : r1 = "limit".toList ++ r2' := mem_plit.mp hpl
    obtain ⟨sp2, r3', hws2, h7⟩ := mem_pbind.mp h6
    obtain ⟨hr2', hne2, hsp2⟩ := mem_runSplits.mp hws2
    obtain ⟨hr3', hnedg, hdg⟩ := mem_runSplits.mp h7
    subst ha
    refine ⟨sp1, sp2, dg, r, rfl, ?_, hsp1, hne1, hsp2, hne2, hdg, hnedg, hrsemi⟩
    rw [hpre1, hr1, hr2', hr3']
    simp [List.append_assoc]
  · right
    subst ha
    rw [hr] at hrsemi
    exact ⟨rfl, hrsemi⟩

/-- A successful recognizer-1 match decomposes the input as
`select \s+ * \s+ from \s+ word tail`. -/
theorem simpleSelectMatch_decomp {s : List Char} {caps : List Char × Option (List Char)}
    (h : simpleSelectMatch s = some caps) :
    ∃ sp1 sp2 sp3 tbl tl,
      s = "select".toList ++ sp1 ++ '*' :: sp2 ++ "from".toList ++ sp3 ++ tbl ++ tl ∧
      spaceRun sp1 ∧ sp1 ≠ [] ∧ spaceRun sp2 ∧ sp2 ≠ [] ∧ spaceRun sp3 ∧ sp3 ≠ [] ∧
      wordRun tbl ∧ tbl ≠ [] ∧ limSemiTail caps.2 tl := by
  obtain ⟨pr, hh, hc⟩ := Option.map_eq_some'.mp h
  have hpr : pr ∈ simpleSelectRe s := List.mem_of_mem_head? (Option.mem_def.mpr hh)
  obtain ⟨⟨tbl0, lim0⟩, rest⟩ := pr
  obtain ⟨u1, r1, hl1, h2⟩ := mem_pbind.mp hpr
  have hs1 : s = "select".toList ++ r1 := mem_plit.mp hl1
  obtain ⟨sp1, r2, hw1, h3⟩ := mem_pbind.mp h2
  obtain ⟨hr1, hne1, hsp1⟩ := mem_runSplits.mp hw1
  obtain ⟨u2, r3, hl2, h4⟩ := mem_pbind.mp h3
  have hr2 : r2 = ['*'] ++ r3 := mem_plit.mp hl2
  obtain ⟨sp2, r4, hw2, h5⟩ := mem_pbind.mp h4
  obtain ⟨hr3, hne2, hsp2⟩ := mem_runSplits.mp hw2
  obtain ⟨u3, r5, hl3, h6⟩ := mem_pbind.mp h5
  have hr4 : r4 = "from".toList ++ r5 := mem_plit.mp hl3
  obtain ⟨sp3, r6, hw3, h7⟩ := mem_pbind.mp h6
  obtain ⟨hr5, hne3, hsp3⟩ := mem_runSplits.mp hw3
  obtain ⟨tblw, r7, hwd, h8⟩ := mem_pbind.mp h7
  obtain ⟨hr6, hnew, hword⟩ := mem_runSplits.mp hwd
  obtain ⟨limv, r8, htl, h9⟩ := mem_pbind.mp h8
  obtain ⟨hrest8, htail⟩ := tailP_mem htl
  obtain ⟨hcap, hrr⟩ := mem_ppure.mp h9
  have hc2 : caps.2 = limv := by
    rw [← hc]
    rw [hcap]
  refine ⟨sp1, sp2, sp3, tblw, r7, ?_, hsp1, hne1, hsp2, hne2, hsp3, hne3,
    hword, hnew, by rw [hc2]; exact htail⟩
  rw [hs1, hr1, hr2, hr3, hr4, hr5, hr6]
  simp [List.append_assoc]

/-- Ending shape of a recognizer-1 match. -/
theorem simpleSelect_ending {s : List Char} {caps : List Char × Option (List Char)}
    (h : simpleSelectMatch s = some caps) :
    endsWordAfter 'm' s ∨ endsWordAfter 't' s ∨ endsSemiP s := by
  obtain ⟨sp1, sp2, sp3, tbl, tl, hs, hsp1, hne1, hsp2, hne2, hsp3, hne3,
    hword, hnew, htail⟩ := simpleSelectMatch_decomp h
  rcases htail with ⟨spl, spd, dg, tl2, -, htl, hspl, hnel, hspd, hned, hdg, hnedg, hst⟩ |
    ⟨-, hst⟩
  · rcases hst with rfl | ⟨sp, rfl, hsp⟩
    · right; left
      refine ⟨"select".toList ++ sp1 ++ '*' :: sp2 ++ "from".toList ++ sp3 ++ tbl ++
        spl ++ ['l','i','m','i'], spd, dg, ?_, hspd, hned, digitRun_word hdg, hnedg⟩
      rw [hs, htl]
      simp [List.append_assoc]
    · right; right
      refine ⟨"select".toList ++ sp1 ++ '*' :: sp2 ++ "from".toList ++ sp3 ++ tbl ++
        spl ++ "limit".toList ++ spd ++ dg ++ sp, ?_⟩
      rw [hs, htl]
      simp [List.append_assoc]
  · rcases hst with rfl | ⟨sp, rfl, hsp⟩
    · left
      refine ⟨"select".toList ++ sp1 ++ '*' :: sp2 ++ ['f','r','o'], sp3, tbl, ?_,
        hsp3, hne3, hword, hnew⟩
      rw [hs]
      simp [List.append_assoc]
    · right; right
      refine ⟨"select".toList ++ sp1 ++ '*' :: sp2 ++ "from".toList ++ sp3 ++ tbl ++ sp, ?_⟩
      rw [hs]
      simp [List.append_assoc]

/-- Front shape of a recognizer-1 match: `select`, whitespace, then `*`. -/
theorem simpleSelect_front {s : List Char} {caps : List Char × Option (List Char)}
    (h : simpleSelectMatch s = some caps) :
    ∃ sp r, s = "select".toList ++ sp ++ '*' :: r ∧ spaceRun sp ∧ sp ≠ [] := by
  obtain ⟨sp1, sp2, sp3, tbl, tl, hs, hsp1, hne1, -⟩ := simpleSelectMatch_decomp h
  refine ⟨sp1, sp2 ++ "from".toList ++ sp3 ++ tbl ++ tl, ?_, hsp1, hne1⟩
  rw [hs]
  simp [List.append_assoc]

/-- Front and ending shapes of a recognizer-2 match. -/
theorem countMatch_decomp {s : List Char} {caps : Option (List Char) × List Char}
    (h : countMatch s = some caps) :
    (∃ sp r, s = "select".toList ++ sp ++ 'c' :: r ∧ spaceRun sp ∧ sp ≠ []) ∧
    (endsWordAfter 'm' s ∨ endsSemiP s) := by
  obtain ⟨pr, hh, hc⟩ := Option.map_eq_some'.mp h
  have hpr : pr ∈ countRe s := List.mem_of_mem_head? (Option.mem_def.mpr hh)
  obtain ⟨⟨a0, t0⟩, rest⟩ := pr
  obtain ⟨u1, r1, hl1, h2⟩ := mem_pbind.mp hpr
  have hs1 : s = "select".toList ++ r1 := mem_plit.mp hl1
  obtain ⟨sp1, r2, hw1, h3⟩ := mem_pbind.mp h2
  obtain ⟨hr1, hne1, hsp1⟩ := mem_runSplits.mp hw1
  obtain ⟨u2, r3, hl2, h4⟩ := mem_pbind.mp h3
  have hr2 : r2 = "count(*)".toList ++ r3 := mem_plit.mp hl2
  obtain ⟨sp2, r4, hw2, h5⟩ := mem_pbind.mp h4
  obtain ⟨hr3, hsp2⟩ := mem_starSplits.mp hw2
  obtain ⟨av, r5, hoa, h6⟩ := mem_pbind.mp h5
  -- the optional alias group: in either case r4 = mid ++ r5 for some mid
  have hmid : ∃ mid, r4 = mid ++ r5 := by
    rcases mem_popt.mp hoa with ⟨aw, -, hmem⟩ | ⟨-, hr⟩
    · obtain ⟨ua, ra, hla, ha2⟩ := mem_pbind.mp hmem
      have hra : r4 = "as".toList ++ ra := mem_plit.mp hla
      obtain ⟨spa, ra2, hwa, ha3⟩ := mem_pbind.mp ha2
      obtain ⟨hra2, -, -⟩ := mem_runSplits.mp hwa
      obtain ⟨wa, ra3, hww, ha4⟩ := mem_pbind.mp ha3
      obtain ⟨hra3, -, -⟩ := mem_runSplits.mp hww
      obtain ⟨spb, ra4, hwb, ha5⟩ := mem_pbind.mp ha4
      obtain ⟨hra4, -, -⟩ := mem_runSplits.mp hwb
      obtain ⟨haw, hra5⟩ := mem_ppure.mp ha5
      refine ⟨"as".toList ++ spa ++ wa ++ spb, ?_⟩
      rw [hra, hra2, hra3, hra4, hra5]
      simp [List.append_assoc]
    · exact ⟨[], by rw [hr]; simp⟩
  obtain ⟨mid, hr4⟩ := hmid
  obtain ⟨u3, r6, hl3, h7⟩ := mem_pbind.mp h6
  have hr5 : r5 = "from".toList ++ r6 := mem_plit.mp hl3
  obtain ⟨sp3, r7, hw3, h8⟩ := mem_pbind.mp h7
  obtain ⟨hr6, hne3, hsp3⟩ := mem_runSplits.mp hw3
  obtain ⟨tblw, r8, hwd, h9⟩ := mem_pbind.mp h8
  obtain ⟨hr7, hnew, hword⟩ := mem_runSplits.mp hwd
  obtain ⟨sv, r9, hso, h10⟩ := mem_pbind.mp h9
  obtain ⟨uv, r10, hpe, h11⟩ := mem_pbind.mp h10
  obtain ⟨hr9, hr10⟩ := mem_pend.mp hpe
  -- r9 = [] ; the optional semicolon consumed r8 down to r9
  have hsemi : r8 = [] ∨ ∃ sp, r8 = sp ++ [';'] ∧ spaceRun sp := by
    rcases mem_popt.mp hso with ⟨w, -, hmem⟩ | ⟨-, hr⟩
    · obtain ⟨sp, rr, hws, hpl⟩ := mem_pbind.mp hmem
      obtain ⟨hreq, hsp⟩ := mem_starSplits.mp hws
      have hrr : rr = [';'] ++ r9 := mem_plit.mp hpl
      right
      exact ⟨sp, by rw [hreq, hrr, hr9]; simp, hsp⟩
    · left
      rw [← hr]
      exact hr9
  have hs : s = "select".toList ++ sp1 ++ "count(*)".toList ++ sp2 ++ mid ++
      "from".toList ++ sp3 ++ tblw ++ r8 := by
    rw [hs1, hr1, hr2, hr3, hr4, hr5, hr6, hr7]
    simp [List.append_assoc]
  constructor
  · refine ⟨sp1, "ount(*)".toList ++ sp2 ++ mid ++ "from".toList ++ sp3 ++ tblw ++ r8,
      ?_, hsp1, hne1⟩
    rw [hs]
    simp [List.append_assoc]
  · rcases hsemi with rfl | ⟨sp, rfl, hsp⟩
    · left
      refine ⟨"select".toList ++ sp1 ++ "count(*)".toList ++ sp2 ++ mid ++ ['f','r','o'],
        sp3, tblw, ?_, hsp3, hne3, hword, hnew⟩
      rw [hs]
      simp [List.append_assoc]
    · right
      refine ⟨"select".toList ++ sp1 ++ "count(*)".toList ++ sp2 ++ mid ++
        "from".toList ++ sp3 ++ tblw ++ sp, ?_⟩
      rw [hs]
      simp [List.append_assoc]

/-- Ending shape of a recognizer-3 match. -/
theorem whereStringMatch_ending {s : List Char}
    {caps : List Char × List Char × List Char × Option (List Char)}
    (h : whereStringMatch s = some caps) :
    endsQuoteP s ∨ endsWordAfter 't' s ∨ endsSemiP s := by
  obtain ⟨pr, hh, hc⟩ := Option.map_eq_some'.mp h
  have hpr : pr ∈ whereStringRe s := List.mem_of_mem_head? (Option.mem_def.mpr hh)
  obtain ⟨cv, rest⟩ := pr
  obtain ⟨u1, r1, hl1, h2⟩ := mem_pbind.mp hpr
  have hs1 : s = "select".toList ++ r1 := mem_plit.mp hl1
  obtain ⟨sp1, r2, hw1, h3⟩ := mem_pbind.mp h2
  obtain ⟨hr1, -, -⟩ := mem_runSplits.mp hw1
  obtain ⟨u2, r3, hl2, h4⟩ := mem_pbind.mp h3
  have hr2 : r2 = ['*'] ++ r3 := mem_plit.mp hl2
  obtain ⟨sp2, r4, hw2, h5⟩ := mem_pbind.mp h4
  obtain ⟨hr3, -, -⟩ := mem_runSplits.mp hw2
  obtain ⟨u3, r5, hl3, h6⟩ := mem_pbind.mp h5
  have hr4 : r4 = "from".toList ++ r5 := mem_plit.mp hl3
  obtain ⟨sp3, r6, hw3, h7⟩ := mem_pbind.mp h6
  obtain ⟨hr5, -, -⟩ := mem_runSplits.mp hw3
  obtain ⟨tblw, r7, hwd, h8⟩ := mem_pbind.mp h7
  obtain ⟨hr6, -, -⟩ := mem_runSplits.mp hwd
  obtain ⟨sp4, r8, hw4, h9⟩ := mem_pbind.mp h8
  obtain ⟨hr7, -, -⟩ := mem_runSplits.mp hw4
  obtain ⟨u4, r9, hl4, h10⟩ := mem_pbind.mp h9
  have hr8 : r8 = "where".toList ++ r9 := mem_plit.mp hl4
  obtain ⟨sp5, r10, hw5, h11⟩ := mem_pbind.mp h10
  obtain ⟨hr9, -, -⟩ := mem_runSplits.mp hw5
  obtain ⟨colw, r11, hwc, h12⟩ := mem_pbind.mp h11
  obtain ⟨hr10, -, -⟩ := mem_runSplits.mp hwc
  obtain ⟨sp6, r12, hw6, h13⟩ := mem_pbind.mp h12
  obtain ⟨hr11, -⟩ := mem_starSplits.mp hw6
  obtain ⟨u5, r13, hl5, h14⟩ := mem_pbind.mp h13
  have hr12 : r12 = ['='] ++ r13 := mem_plit.mp hl5
  obtain ⟨sp7, r14, hw7, h15⟩ := mem_pbind.mp h14
  obtain ⟨hr13, -⟩ := mem_starSplits.mp hw7
  obtain ⟨u6, r15, hl6, h16⟩ := mem_pbind.mp h15
  have hr14 : r14 = [quoteCh] ++ r15 := mem_plit.mp hl6
  obtain ⟨vw, r16, hvv, h17⟩ := mem_pbind.mp h16
  obtain ⟨hr15, -, -⟩ := mem_runSplits.mp hvv
  obtain ⟨u7, r17, hl7, h18⟩ := mem_pbind.mp h17
  have hr16 : r16 = [quoteCh] ++ r17 := mem_plit.mp hl7
  obtain ⟨limv, r18, htl, h19⟩ := mem_pbind.mp h18
  obtain ⟨-, htail⟩ := tailP_mem htl
  have hs : s = "select".toList ++ sp1 ++ '*' :: sp2 ++ "from".toList ++ sp3 ++ tblw ++
      sp4 ++ "where".toList ++ sp5 ++ colw ++ sp6 ++ '=' :: sp7 ++
      quoteCh :: vw ++ quoteCh :: r17 := by
    rw [hs1, hr1, hr2, hr3, hr4, hr5, hr6, hr7, hr8, hr9, hr10, hr11, hr12, hr13,
      hr14, hr15, hr16]
    simp [List.append_assoc]
  rcases htail with ⟨spl, spd, dg, tl2, -, htl2, hspl, hnel, hspd, hned, hdg, hnedg, hst⟩ |
    ⟨-, hst⟩
  · rcases hst with rfl | ⟨sp, rfl, hsp⟩
    · right; left
      refine ⟨"select".toList ++ sp1 ++ '*' :: sp2 ++ "from".toList ++ sp3 ++ tblw ++
        sp4 ++ "where".toList ++ sp5 ++ colw ++ sp6 ++ '=' :: sp7 ++
        quoteCh :: vw ++ quoteCh :: spl ++ ['l','i','m','i'], spd, dg, ?_,
        hspd, hned, digitRun_word hdg, hnedg⟩
      rw [hs, htl2]
      simp [List.append_assoc]
    · right; right
      refine ⟨"select".toList ++ sp1 ++ '*' :: sp2 ++ "from".toList ++ sp3 ++ tblw ++
        sp4 ++ "where".toList ++ sp5 ++ colw ++ sp6 ++ '=' :: sp7 ++
        quoteCh :: vw ++ quoteCh :: spl ++ "limit".toList ++ spd ++ dg ++ sp, ?_⟩
      rw [hs, htl2]
      simp [List.append_assoc]
  · rcases hst with rfl | ⟨sp, rfl, hsp⟩
    · left
      refine ⟨"select".toList ++ sp1 ++ '*' :: sp2 ++ "from".toList ++ sp3 ++ tblw ++
        sp4 ++ "where".toList ++ sp5 ++ colw ++ sp6 ++ '=' :: sp7 ++
        quoteCh :: vw, ?_⟩
      simp [hs, List.append_assoc]
    · right; right
      refine ⟨"select".toList ++ sp1 ++ '*' :: sp2 ++ "from".toList ++ sp3 ++ tblw ++
        sp4 ++ "where".toList ++ sp5 ++ colw ++ sp6 ++ '=' :: sp7 ++
        quoteCh :: vw ++ quoteCh :: sp, ?_⟩
      rw [hs]
      simp [List.append_assoc]

/-- Ending shape of a recognizer-4 match. -/
theorem whereNumMatch_ending {s : List Char}
    {caps : List Char × List Char × List Char × Option (List Char)}
    (h : whereNumMatch s = some caps) :
    endsEqNum s ∨ endsWordAfter 't' s ∨ endsSemiP s := by
  obtain ⟨pr, hh, hc⟩ := Option.map_eq_some'.mp h
  have hpr : pr ∈ whereNumRe s := List.mem_of_mem_head? (Option.mem_def.mpr hh)
  obtain ⟨cv, rest⟩ := pr
  obtain ⟨u1, r1, hl1, h2⟩ := mem_pbind.mp hpr
  have hs1 : s = "select".toList ++ r1 := mem_plit.mp hl1
  obtain ⟨sp1, r2, hw1, h3⟩ := mem_pbind.mp h2
  obtain ⟨hr1, -, -⟩ := mem_runSplits.mp hw1
  obtain ⟨u2, r3, hl2, h4⟩ := mem_pbind.mp h3
  have hr2 : r2 = ['*'] ++ r3 := mem_plit.mp hl2
  obtain ⟨sp2, r4, hw2, h5⟩ := mem_pbind.mp h4
  obtain ⟨hr3, -, -⟩ := mem_runSplits.mp hw2
  obtain ⟨u3, r5, hl3, h6⟩ := mem_pbind.mp h5
  have hr4 : r4 = "from".toList ++ r5 := mem_plit.mp hl3
  obtain ⟨sp3, r6, hw3, h7⟩ := mem_pbind.mp h6
  obtain ⟨hr5, -, -⟩ := mem_runSplits.mp hw3
  obtain ⟨tblw, r7, hwd, h8⟩ := mem_pbind.mp h7
  obtain ⟨hr6, -, -⟩ := mem_runSplits.mp hwd
  obtain ⟨sp4, r8, hw4, h9⟩ := mem_pbind.mp h8
  obtain ⟨hr7, -, -⟩ := mem_runSplits.mp hw4
  obtain ⟨u4, r9, hl4, h10⟩ := mem_pbind.mp h9
  have hr8 : r8 = "where".toList ++ r9 := mem_plit.mp hl4
  obtain ⟨sp5, r10, hw5, h11⟩ := mem_pbind.mp h10
  obtain ⟨hr9, -, -⟩ := mem_runSplits.mp hw5
  obtain ⟨colw, r11, hwc, h12⟩ := mem_pbind.mp h11
  obtain ⟨hr10, -, -⟩ := mem_runSplits.mp hwc
  obtain ⟨sp6, r12, hw6, h13⟩ := mem_pbind.mp h12
  obtain ⟨hr11, -⟩ := mem_starSplits.mp hw6
  obtain ⟨u5, r13, hl5, h14⟩ := mem_pbind.mp h13
  have hr12 : r12 = ['='] ++ r13 := mem_plit.mp hl5
  obtain ⟨sp7, r14, hw7, h15⟩ := mem_pbind.mp h14
  obtain ⟨hr13, hsp7⟩ := mem_starSplits.mp hw7
  obtain ⟨vw, r15, hvv, h16⟩ := mem_pbind.mp h15
  obtain ⟨hr14, hnev, hdv⟩ := mem_runSplits.mp hvv
  obtain ⟨limv, r16, htl, h17⟩ := mem_pbind.mp h16
  obtain ⟨-, htail⟩ := tailP_mem htl
  have hs : s = "select".toList ++ sp1 ++ '*' :: sp2 ++ "from".toList ++ sp3 ++ tblw ++
      sp4 ++ "where".toList ++ sp5 ++ colw ++ sp6 ++ '=' :: sp7 ++ vw ++ r15 := by
    rw [hs1, hr1, hr2, hr3, hr4, hr5, hr6, hr7, hr8, hr9, hr10, hr11, hr12, hr13, hr14]
    simp [List.append_assoc]
  rcases htail with ⟨spl, spd, dg, tl2, -, htl2, hspl, hnel, hspd, hned, hdg, hnedg, hst⟩ |
    ⟨-, hst⟩
  · rcases hst with rfl | ⟨sp, rfl, hsp⟩
    · right; left
      refine ⟨"select".toList ++ sp1 ++ '*' :: sp2 ++ "from".toList ++ sp3 ++ tblw ++
        sp4 ++ "where".toList ++ sp5 ++ colw ++ sp6 ++ '=' :: sp7 ++ vw ++
        spl ++ ['l','i','m','i'], spd, dg, ?_, hspd, hned, digitRun_word hdg, hnedg⟩
      rw [hs, htl2]
      simp [List.append_assoc]
    · right; right
      refine ⟨"select".toList ++ sp1 ++ '*' :: sp2 ++ "from".toList ++ sp3 ++ tblw ++
        sp4 ++ "where".toList ++ sp5 ++ colw ++ sp6 ++ '=' :: sp7 ++ vw ++
        spl ++ "limit".toList ++ spd ++ dg ++ sp, ?_⟩
      rw [hs, htl2]
      simp [List.append_assoc]
  · rcases hst with rfl | ⟨sp, rfl, hsp⟩
    · left
      refine ⟨"select".toList ++ sp1 ++ '*' :: sp2 ++ "from".toList ++ sp3 ++ tblw ++
        sp4 ++ "where".toList ++ sp5 ++ colw ++ sp6, sp7, vw, ?_,
        hsp7, digitRun_word hdv, hnev⟩
      rw [hs]
      simp [List.append_assoc]
    · right; right
      refine ⟨"select".toList ++ sp1 ++ '*' :: sp2 ++ "from".toList ++ sp3 ++ tblw ++
        sp4 ++ "where".toList ++ sp5 ++ colw ++ sp6 ++ '=' :: sp7 ++ vw ++ sp, ?_⟩
      rw [hs]
      simp [List.append_assoc]

/-- Ending shape of a recognizer-5 match. -/
theorem selectColumnsMatch_ending {s : List Char}
    {caps : List Char × List Char × Option (List Char)}
    (h : selectColumnsMatch s = some caps) :
    endsWordAfter 'm' s ∨ endsWordAfter 't' s ∨ endsSemiP s := by
  obtain ⟨pr, hh, hc⟩ := Option.map_eq_some'.mp h
  have hpr : pr ∈ selectColumnsRe s := List.mem_of_mem_head? (Option.mem_def.mpr hh)
  obtain ⟨cv, rest⟩ := pr
  obtain ⟨u1, r1, hl1, h2⟩ := mem_pbind.mp hpr
  have hs1 : s = "select".toList ++ r1 := mem_plit.mp hl1
  obtain ⟨sp1, r2, hw1, h3⟩ := mem_pbind.mp h2
  obtain ⟨hr1, -, -⟩ := mem_runSplits.mp hw1
  obtain ⟨c0, r3, hc0, h4⟩ := mem_pbind.mp h3
  obtain ⟨c0', hr2, -, hcc⟩ := mem_pcls.mp hc0
  obtain ⟨gw, r4, hgg, h5⟩ := mem_pbind.mp h4
  obtain ⟨hr3, -, -⟩ := mem_runSplits.mp hgg
  obtain ⟨sp2, r5, hw2, h6⟩ := mem_pbind.mp h5
  obtain ⟨hr4, -, -⟩ := mem_runSplits.mp hw2
  obtain ⟨u3, r6, hl3, h7⟩ := mem_pbind.mp h6
  have hr5 : r5 = "from".toList ++ r6 := mem_plit.mp hl3
  obtain ⟨sp3, r7, hw3, h8⟩ := mem_pbind.mp h7
  obtain ⟨hr6, hne3, hsp3⟩ := mem_runSplits.mp hw3
  obtain ⟨tblw, r8, hwd, h9⟩ := mem_pbind.mp h8
  obtain ⟨hr7, hnew, hword⟩ := mem_runSplits.mp hwd
  obtain ⟨limv, r9, htl, h10⟩ := mem_pbind.mp h9
  obtain ⟨-, htail⟩ := tailP_mem htl
  have hs : s = "select".toList ++ sp1 ++ c0' :: gw ++ sp2 ++ "from".toList ++ sp3 ++
      tblw ++ r8 := by
    rw [hs1, hr1, hr2, hr3, hr4, hr5, hr6, hr7]
    simp [List.append_assoc]
  rcases htail with ⟨spl, spd, dg, tl2, -, htl2, hspl, hnel, hspd, hned, hdg, hnedg, hst⟩ |
    ⟨-, hst⟩
  · rcases hst with rfl | ⟨sp, rfl, hsp⟩
    · right; left
      refine ⟨"select".toList ++ sp1 ++ c0' :: gw ++ sp2 ++ "from".toList ++ sp3 ++
        tblw ++ spl ++ ['l','i','m','i'], spd, dg, ?_, hspd, hned,
        digitRun_word hdg, hnedg⟩
      rw [hs, htl2]
      simp [List.append_assoc]
    · right; right
      refine ⟨"select".toList ++ sp1 ++ c0' :: gw ++ sp2 ++ "from".toList ++ sp3 ++
        tblw ++ spl ++ "limit".toList ++ spd ++ dg ++ sp, ?_⟩
      rw [hs, htl2]
      simp [List.append_assoc]
  · rcases hst with rfl | ⟨sp, rfl, hsp⟩
    · left
      refine ⟨"select".toList ++ sp1 ++ c0' :: gw ++ sp2 ++ ['f','r','o'], sp3, tblw, ?_,
        hsp3, hne3, hword, hnew⟩
      rw [hs]
      simp [List.append_assoc]
    · right; right
      refine ⟨"select".toList ++ sp1 ++ c0' :: gw ++ sp2 ++ "from".toList ++ sp3 ++
        tblw ++ sp, ?_⟩
      rw [hs]
      simp [List.append_assoc]

/-- Ending shape of a recognizer-6 match: `... by \s+ word` at end of input. -/
theorem groupByMatch_ending {s : List Char}
    {caps : List Char × Option (List Char) × List Char × List Char}
    (h : groupByMatch s = some caps) : endsWordAfter 'y' s := by
  obtain ⟨pr, hh, hc⟩ := Option.map_eq_some'.mp h
  have hpr : pr ∈ groupByRe s := List.mem_of_mem_head? (Option.mem_def.mpr hh)
  obtain ⟨cv, rest⟩ := pr
  obtain ⟨u1, r1, hl1, h2⟩ := mem_pbind.mp hpr
  have hs1 : s = "select".toList ++ r1 := mem_plit.mp hl1
  obtain ⟨sp1, r2, hw1, h3⟩ := mem_pbind.mp h2
  obtain ⟨hr1, -, -⟩ := mem_runSplits.mp hw1
  obtain ⟨gw, r3, hgw, h4⟩ := mem_pbind.mp h3
  obtain ⟨hr2, -, -⟩ := mem_runSplits.mp hgw
  obtain ⟨u2, r4, hl2, h5⟩ := mem_pbind.mp h4
  have hr3 : r3 = [','] ++ r4 := mem_plit.mp hl2
  obtain ⟨sp2, r5, hw2, h6⟩ := mem_pbind.mp h5
  obtain ⟨hr4, -⟩ := mem_starSplits.mp hw2
  obtain ⟨u3, r6, hl3, h7⟩ := mem_pbind.mp h6
  have hr5' : r5 = "count(*)".toList ++ r6 := mem_plit.mp hl3
  obtain ⟨sp3, r7, hw3, h8⟩ := mem_pbind.mp h7
  obtain ⟨hr6, -⟩ := mem_starSplits.mp hw3
  obtain ⟨av, r8, hoa, h9⟩ := mem_pbind.mp h8
  have hmid : ∃ mid, r7 = mid ++ r8 := by
    rcases mem_popt.mp hoa with ⟨aw, -, hmem⟩ | ⟨-, hr⟩
    · obtain ⟨ua, ra, hla, ha2⟩ := mem_pbind.mp hmem
      have hra : r7 = "as".toList ++ ra := mem_plit.mp hla
      obtain ⟨spa, ra2, hwa, ha3⟩ := mem_pbind.mp ha2
      obtain ⟨hra2, -, -⟩ := mem_runSplits.mp hwa
      obtain ⟨hra3, -, -⟩ := mem_runSplits.mp ha3
      refine ⟨"as".toList ++ spa ++ aw, ?_⟩
      rw [hra, hra2, hra3]
      simp [List.append_assoc]
    · exact ⟨[], by rw [hr]; simp⟩
  obtain ⟨mid, hr7⟩ := hmid
  obtain ⟨sp4, r9, hw4, h10⟩ := mem_pbind.mp h9
  obtain ⟨hr8, -, -⟩ := mem_runSplits.mp hw4
  obtain ⟨u4, r10, hl4, h11⟩ := mem_pbind.mp h10
  have hr9 : r9 = "from".toList ++ r10 := mem_plit.mp hl4
  obtain ⟨sp5, r11, hw5, h12⟩ := mem_pbind.mp h11
  obtain ⟨hr10, -, -⟩ := mem_runSplits.mp hw5
  obtain ⟨tblw, r12, hwt, h13⟩ := mem_pbind.mp h12
  obtain ⟨hr11, -, -⟩ := mem_runSplits.mp hwt
  obtain ⟨sp6, r13, hw6, h14⟩ := mem_pbind.mp h13
  obtain ⟨hr12, -, -⟩ := mem_runSplits.mp hw6
  obtain ⟨u5, r14, hl5, h15⟩ := mem_pbind.mp h14
  have hr13 : r13 = "group".toList ++ r14 := mem_plit.mp hl5
  obtain ⟨sp7, r15, hw7, h16⟩ := mem_pbind.mp h15
  obtain ⟨hr14, -, -⟩ := mem_runSplits.mp hw7
  obtain ⟨u6, r16, hl6, h17⟩ := mem_pbind.mp h16
  have hr15 : r15 = "by".toList ++ r16 := mem_plit.mp hl6
  obtain ⟨sp8, r17, hw8, h18⟩ := mem_pbind.mp h17
  obtain ⟨hr16, hne8, hsp8⟩ := mem_runSplits.mp hw8
  obtain ⟨gbw, r18, hwg, h19⟩ := mem_pbind.mp h18
  obtain ⟨hr17, hneg, hwordg⟩ := mem_runSplits.mp hwg
  obtain ⟨u7, r19, hpe, h20⟩ := mem_pbind.mp h19
  obtain ⟨hr18, hr19⟩ := mem_pend.mp hpe
  refine ⟨"select".toList ++ sp1 ++ gw ++ ',' :: sp2 ++ "count(*)".toList ++ sp3 ++
    mid ++ sp4 ++ "from".toList ++ sp5 ++ tblw ++ sp6 ++ "group".toList ++ sp7 ++
    ['b'], sp8, gbw, ?_, hsp8, hne8, hwordg, hneg⟩
  rw [hs1, hr1, hr2, hr3, hr4, hr5', hr6, hr7, hr8, hr9, hr10, hr11, hr12, hr13,
    hr14, hr15, hr16, hr17, hr18]
  simp [List.append_assoc]

/-! ### Mutual exclusivity of the recognizers -/

/-- An input matched by recognizer 6 is not matched by recognizer 1. -/
theorem groupBy_excl_simpleSelect {s : List Char}
    {caps : List Char × Option (List Char) × List Char × List Char}
    (hg : groupByMatch s = some caps) : simpleSelectMatch s = none := by
  cases h : simpleSelectMatch s with
  | none => rfl
  | some c =>
    exfalso
    have hy := groupByMatch_ending hg
    rcases simpleSelect_ending h with hm | ht | hsemi
    · exact absurd (endsWordAfter_clash hm hy (by decide) (by decide)) (by decide)
    · exact absurd (endsWordAfter_clash ht hy (by decide) (by decide)) (by decide)
    · exact endsSemi_not_endsWordAfter hsemi hy

/-- An input matched by recognizer 6 is not matched by recognizer 2. -/
theorem groupBy_excl_count {s : List Char}
    {caps : List Char × Option (List Char) × List Char × List Char}
    (hg : groupByMatch s = some caps) : countMatch s = none := by
  cases h : countMatch s with
  | none => rfl
  | some c =>
    exfalso
    have hy := groupByMatch_ending hg
    rcases (countMatch_decomp h).2 with hm | hsemi
    · exact absurd (endsWordAfter_clash hm hy (by decide) (by decide)) (by decide)
    · exact endsSemi_not_endsWordAfter hsemi hy

/-- An input matched by recognizer 6 is not matched by recognizer 3. -/
theorem groupBy_excl_whereString {s : List Char}
    {caps : List Char × Option (List Char) × List Char × List Char}
    (hg : groupByMatch s = some caps) : whereStringMatch s = none := by
  cases h : whereStringMatch s with
  | none => rfl
  | some c =>
    exfalso
    have hy := groupByMatch_ending hg
    rcases whereStringMatch_ending h with hq | ht | hsemi
    · exact endsQuote_not_endsWordAfter hq hy
    · exact absurd (endsWordAfter_clash ht hy (by decide) (by decide)) (by decide)
    · exact endsSemi_not_endsWordAfter hsemi hy

/-- An input matched by recognizer 6 is not matched by recognizer 4. -/
theorem groupBy_excl_whereNum {s : List Char}
    {caps : List Char × Option (List Char) × List Char × List Char}
    (hg : groupByMatch s = some caps) : whereNumMatch s = none := by
  cases h : whereNumMatch s with
  | none => rfl
  | some c =>
    exfalso
    have hy := groupByMatch_ending hg
    rcases whereNumMatch_ending h with he | ht | hsemi
    · exact endsEqNum_not_endsWordAfter he hy (by decide) (by decide)
    · exact absurd (endsWordAfter_clash ht hy (by decide) (by decide)) (by decide)
    · exact endsSemi_not_endsWordAfter hsemi hy

/-- An input matched by recognizer 6 is not matched by recognizer 5. -/
theorem groupBy_excl_selectColumns {s : List Char}
    {caps : List Char × Option (List Char) × List Char × List Char}
    (hg : groupByMatch s = some caps) : selectColumnsMatch s = none := by
  cases h : selectColumnsMatch s with
  | none => rfl
  | some c =>
    exfalso
    have hy := groupByMatch_ending hg
    rcases selectColumnsMatch_ending h with hm | ht | hsemi
    · exact absurd (endsWordAfter_clash hm hy (by decide) (by decide)) (by decide)
    · exact absurd (endsWordAfter_clash ht hy (by decide) (by decide)) (by decide)
    · exact endsSemi_not_endsWordAfter hsemi hy

/-- An input matched by recognizer 2 is not matched by recognizer 1: after
`select` and whitespace, recognizer 1 requires `*` where recognizer 2
requires `c`. -/
theorem count_excl_simpleSelect {s : List Char}
    {caps : Option (List Char) × List Char}
    (hcm : countMatch s = some caps) : simpleSelectMatch s = none := by
  cases h : simpleSelectMatch s with
  | none => rfl
  | some c =>
    exfalso
    obtain ⟨sp1, r1, he1, hs1, hn1⟩ := simpleSelect_front h
    obtain ⟨⟨sp2, r2, he2, hs2, hn2⟩, -⟩ := countMatch_decomp hcm
    have heq : sp1 ++ '*' :: r1 = sp2 ++ 'c' :: r2 := by
      have h3 := he1.symm.trans he2
      rw [List.append_assoc, List.append_assoc] at h3
      exact List.append_cancel_left h3
    obtain ⟨-, hxy, -⟩ := runAlign (P := isSpaceCh) hs1 hs2 (by decide) (by decide) heq
    exact absurd hxy (by decide)

/-! ### Correctness of the client-side GROUP BY aggregation -/

/-- Count associated with key `v` in the `grouped` object (0 when absent). -/
def lookupCnt {V : Type} [DecidableEq V] : List (V × Nat) → V → Nat
  | [], _ => 0
  | (k, n) :: t, v => if v = k then n else lookupCnt t v

theorem bumpKey_keys {V : Type} [DecidableEq V] (l : List (V × Nat)) (k : V) :
    (bumpKey l k).map Prod.fst =
      if k ∈ l.map Prod.fst then l.map Prod.fst else l.map Prod.fst ++ [k] := by
  induction l with
  | nil => simp [bumpKey]
  | cons p t ih =>
    obtain ⟨k', n⟩ := p
    simp only [bumpKey]
    by_cases hk : k = k'
    · subst hk
      simp
    · rw [if_neg hk]
      simp only [List.map_cons]
      by_cases hmem : k ∈ t.map Prod.fst
      · rw [ih, if_pos hmem, if_pos (List.mem_cons_of_mem _ hmem)]
      · rw [ih, if_neg hmem, if_neg (by simp [List.mem_cons, hk, hmem]),
          List.cons_append]

theorem bumpKey_lookupCnt_self {V : Type} [DecidableEq V] (l : List (V × Nat)) (k : V) :
    lookupCnt (bumpKey l k) k = lookupCnt l k + 1 := by
  induction l with
  | nil => simp [bumpKey, lookupCnt]
  | cons p t ih =>
    obtain ⟨k', n⟩ := p
    simp only [bumpKey]
    by_cases hk : k = k'
    · subst hk
      simp [lookupCnt]
    · rw [if_neg hk]
      simp only [lookupCnt]
      rw [if_neg hk, if_neg hk]
      exact ih

theorem bumpKey_lookupCnt_ne {V : Type} [DecidableEq V] (l : List (V × Nat))
    {k v : V} (h : v ≠ k) : lookupCnt (bumpKey l k) v = lookupCnt l v := by
  induction l with
  | nil => simp [bumpKey, lookupCnt, if_neg h]
  | cons p t ih =>
    obtain ⟨k', n⟩ := p
    simp only [bumpKey]
    by_cases hk : k = k'
    · subst hk
      simp only [lookupCnt]
      rw [if_neg h, if_neg h]
    · rw [if_neg hk]
      simp only [lookupCnt]
      by_cases hv : v = k'
      · rw [if_pos hv, if_pos hv]
      · rw [if_neg hv, if_neg hv]
        exact ih

theorem bumpKey_nodup {V : Type} [DecidableEq V] {l : List (V × Nat)} (k : V)
    (h : (l.map Prod.fst).Nodup) : ((bumpKey l k).map Prod.fst).Nodup := by
  rw [bumpKey_keys]
  by_cases hmem : k ∈ l.map Prod.fst
  · rw [if_pos hmem]
    exact h
  · rw [if_neg hmem]
    simp [List.nodup_append, h, hmem]

theorem mem_iff_lookupCnt {V : Type} [DecidableEq V] : ∀ {l : List (V × Nat)},
    (l.map Prod.fst).Nodup → ∀ {v : V} {n : Nat},
      ((v, n) ∈ l ↔ v ∈ l.map Prod.fst ∧ n = lookupCnt l v) := by
  intro l
  induction l with
  | nil => intro _ v n; simp
  | cons p t ih =>
    obtain ⟨k, m⟩ := p
    intro hnd v n
    simp only [List.map_cons, List.nodup_cons] at hnd
    obtain ⟨hk, hndt⟩ := hnd
    simp only [List.mem_cons, List.map_cons, lookupCnt]
    constructor
    · rintro (heq | hmem)
      · injection heq with h1 h2
        subst h1
        subst h2
        rw [if_pos rfl]
        exact ⟨Or.inl rfl, rfl⟩
      · obtain ⟨hv, hn⟩ := (ih hndt).mp hmem
        have hne : v ≠ k := fun hvk => hk (hvk ▸ hv)
        rw [if_neg hne]
        exact ⟨Or.inr hv, hn⟩
    · rintro ⟨hv | hv, hn⟩
      · subst hv
        rw [if_pos rfl] at hn
        subst hn
        exact Or.inl rfl
      · by_cases hvk : v = k
        · exact absurd (hvk ▸ hv) hk
        · rw [if_neg hvk] at hn
          exact Or.inr ((ih hndt).mpr ⟨hv, hn⟩)

theorem foldl_bump_keys_nodup {V : Type} [DecidableEq V] :
    ∀ (vals : List V) (acc : List (V × Nat)), (acc.map Prod.fst).Nodup →
      ((vals.foldl bumpKey acc).map Prod.fst).Nodup := by
  intro vals
  induction vals with
  | nil => intro acc h; simpa using h
  | cons u us ih =>
    intro acc h
    rw [List.foldl_cons]
    exact ih _ (bumpKey_nodup u h)

theorem foldl_bump_lookupCnt {V : Type} [DecidableEq V] :
    ∀ (vals : List V) (acc : List (V × Nat)) (v : V),
      lookupCnt (vals.foldl bumpKey acc) v = lookupCnt acc v + vals.count v := by
  intro vals
  induction vals with
  | nil => intro acc v; simp
  | cons u us ih =>
    intro acc v
    rw [List.foldl_cons, ih]
    by_cases hv : v = u
    · subst hv
      rw [bumpKey_lookupCnt_self, List.count_cons]
      simp
      omega
    · rw [bumpKey_lookupCnt_ne _ hv, List.count_cons]
      have hv2 : ¬u = v := fun h => hv h.symm
      simp [hv, hv2]

theorem foldl_bump_mem_keys {V : Type} [DecidableEq V] :
    ∀ (vals : List V) (acc : List (V × Nat)) (v : V),
      (v ∈ (vals.foldl bumpKey acc).map Prod.fst ↔
        v ∈ acc.map Prod.fst ∨ v ∈ vals) := by
  intro vals
  induction vals with
  | nil => intro acc v; simp
  | cons u us ih =>
    intro acc v
    rw [List.foldl_cons, ih, bumpKey_keys]
    by_cases hm : u ∈ acc.map Prod.fst
    · rw [if_pos hm]
      constructor
      · rintro (h | h)
        · exact Or.inl h
        · exact Or.inr (List.mem_cons_of_mem _ h)
      · rintro (h | h)
        · exact Or.inl h
        · rcases List.mem_cons.mp h with rfl | h2
          · exact Or.inl hm
          · exact Or.inr h2
    · rw [if_neg hm]
      simp only [List.mem_append, List.mem_singleton, List.mem_cons]
      tauto

/-- The `grouped` object holds exactly one entry per distinct fetched value,
carrying its occurrence count. -/
theorem groupedCounts_mem {V : Type} [DecidableEq V] (vals : List V) (v : V) (n : Nat) :
    ((v, n) ∈ groupedCounts vals ↔ v ∈ vals ∧ n = vals.count v) := by
  unfold groupedCounts
  have hnd := foldl_bump_keys_nodup vals [] (by simp)
  rw [mem_iff_lookupCnt hnd, foldl_bump_mem_keys, foldl_bump_lookupCnt]
  simp [lookupCnt]

/-- Keys of the `grouped` object are pairwise distinct. -/
theorem groupedCounts_nodup {V : Type} [DecidableEq V] (vals : List V) :
    (((groupedCounts vals).map Prod.fst)).Nodup :=
  foldl_bump_keys_nodup vals [] (by simp)

/-- **C2 counterexample.** The claim as stated fails in both directions:
a missing-table error (`relation "phantom" does not exist`) indicates
neither an absent capability nor a syntax error, yet the dispatcher does
fall back (the outcome is the structured path's success, not the backend
error); and an unclassified error (`boom`) is not propagated verbatim —
the caller sees it prefixed with `Query execution failed: `. -/
theorem rpcError_propagation_claim_fails :
    executeViaSupabaseRPC missTableClient "select * from phantom".toList =
      (Except.ok [], [BackendCall.rpcCall "select * from phantom".toList,
        BackendCall.selectAllCall "phantom".toList none]) ∧
    (Except.ok ([] : List (Row String)) ≠
      (Except.error "relation \"phantom\" does not exist".toList :
        Except (List Char) (List (Row String)))) ∧
    executeViaSupabaseRPC boomClient "select 1".toList =
      (Except.error ("Query execution failed: boom".toList),
       [BackendCall.rpcCall "select 1".toList]) ∧
    ("Query execution failed: boom".toList ≠ "boom".toList) :=
  ⟨by rfl, by simp, by rfl, by decide⟩


/-! ### Claim theorems: the pattern translator -/

/-- **C3.** The translator's recognizer cascade evaluates the ordered rule
list (1) select-all, (2) count-all, (3) string-equality, (4)
numeric-equality, (5) explicit column list, (6) same-column group-count,
(7) loose select-all with first-match-wins semantics: for every cleaned
input the issued structured call is determined by the first rule (in that
order) that matches, and `UnsupportedPattern` is raised only when none
matches. -/
theorem translator_first_match_wins {V : Type} [DecidableEq V]
    (client : SupabaseClient V) (query : List Char) :
    parseAndExecuteQuery client query =
      match firstMatchedPlan (trimChars (query.map toLowerCh)) with
      | some p => execPlan client p
      | none => (Except.error (unsupportedMessage query), []) :=
  parseAndExecuteQuery_eq_firstMatch client query

/-- **C4 (amended).** When no recognizer matches, the fallback fails with
the `UnsupportedPattern` error whose message names the unsupported query
and directs to install the RPC function; no backend call is made.  (The
supported shapes are enumerated on the console log only, not in the error
value — see the counterexample.) -/
theorem unsupportedPattern_error {V : Type} [DecidableEq V]
    (client : SupabaseClient V) (query : List Char)
    (h : firstMatchedPlan (trimChars (query.map toLowerCh)) = none) :
    parseAndExecuteQuery client query =
      (Except.error (unsupportedMessage query), []) := by
  rw [parseAndExecuteQuery_eq_firstMatch, h]

/-- Witness for C4 (amended) at the unmatched input `select 1`. -/
theorem unsupportedPattern_error_witness :
    firstMatchedPlan (trimChars ("select 1".toList.map toLowerCh)) = none ∧
    parseAndExecuteQuery okClient "select 1".toList =
      (Except.error (unsupportedMessage "select 1".toList), []) :=
  ⟨by decide, unsupportedPattern_error okClient "select 1".toList (by decide)⟩

/-- **C4 counterexample.** The error value delivered for an unmatched input
does not enumerate the supported shapes: for `select 1` the message
mentions neither the count shape, nor the group-by shape, nor the
where-equality shape (that enumeration goes to the console log only). -/
theorem unsupportedPattern_message_lacks_shapes :
    parseAndExecuteQuery okClient "select 1".toList =
      (Except.error (unsupportedMessage "select 1".toList), []) ∧
    containsSub "count".toList
      ((unsupportedMessage "select 1".toList).map toLowerCh) = false ∧
    containsSub "group".toList
      ((unsupportedMessage "select 1".toList).map toLowerCh) = false ∧
    containsSub "where".toList
      ((unsupportedMessage "select 1".toList).map toLowerCh) = false :=
  ⟨by rfl, by decide, by decide, by decide⟩

/-- **C8.** For every cleaned input matching the count-all shape, the
translator itself issues the backend count operation (a `countCall`, not a
raw execute) and returns a single row whose sole field is named by the
alias, defaulting to `count`. -/
theorem countAll_translation {V : Type} [DecidableEq V]
    (client : SupabaseClient V) (query : List Char)
    {aliasC : Option (List Char)} {tbl : List Char}
    (h : countMatch (trimChars (query.map toLowerCh)) = some (aliasC, tbl)) :
    parseAndExecuteQuery client query =
      ((client.selectCount tbl).map fun n => [[(aliasOrCount aliasC, JsVal.num n)]],
       [BackendCall.countCall tbl]) := by
  have h1 : simpleSelectMatch (trimChars (query.map toLowerCh)) = none :=
    count_excl_simpleSelect h
  simp only [parseAndExecuteQuery, h1, h]

/-- Witness for C8 at `SELECT COUNT(*) as total FROM products`. -/
theorem countAll_translation_witness :
    countMatch (trimChars
        ("SELECT COUNT(*) as total FROM products".toList.map toLowerCh)) =
      some (some "total".toList, "products".toList) ∧
    parseAndExecuteQuery okClient "SELECT COUNT(*) as total FROM products".toList =
      ((okClient.selectCount "products".toList).map fun n =>
         [[(aliasOrCount (some "total".toList), JsVal.num n)]],
       [BackendCall.countCall "products".toList]) :=
  ⟨by decide,
   countAll_translation okClient "SELECT COUNT(*) as total FROM products".toList
     (by decide)⟩

/-- **C9.** For every cleaned input matching the same-column group-count
shape, the fallback fetches the column's values with a single
`columnValuesCall` round trip and aggregates client-side: the result has
one row per distinct fetched value, pairing the value with its occurrence
count under the alias (default `count`), set-equal to the true
distribution of the fetched values. -/
theorem groupCount_translation {V : Type} [DecidableEq V]
    (client : SupabaseClient V) (query : List Char)
    {gcol : List Char} {aliasC : Option (List Char)} {tbl gbcol : List Char}
    {vals : List V}
    (h : groupByMatch (trimChars (query.map toLowerCh)) =
      some (gcol, aliasC, tbl, gbcol))
    (heqc : gcol = gbcol)
    (hvals : client.selectColumnValues tbl gcol = Except.ok vals) :
    parseAndExecuteQuery client query =
      (Except.ok (groupedRows gcol (aliasOrCount aliasC) vals),
       [BackendCall.columnValuesCall tbl gcol]) ∧
    (∀ v n, ((v, n) ∈ groupedCounts vals ↔ v ∈ vals ∧ n = vals.count v)) ∧
    (((groupedCounts vals).map Prod.fst)).Nodup := by
  refine ⟨?_, fun v n => groupedCounts_mem vals v n, groupedCounts_nodup vals⟩
  subst heqc
  have h1 := groupBy_excl_simpleSelect h
  have h2 := groupBy_excl_count h
  have h3 := groupBy_excl_whereString h
  have h4 := groupBy_excl_whereNum h
  have h5 := groupBy_excl_selectColumns h
  simp only [parseAndExecuteQuery, h1, h2, h3, h4, h5, h, hvals, if_pos rfl]
  simp [Except.map]

/-- A backend whose single-column projection yields the values
`a`, `b`, `a`. -/
def groupClient : SupabaseClient String where
  rpcExecuteSql := fun _ => Except.error "boom".toList
  selectStar := fun _ _ => Except.ok []
  selectCount := fun _ => Except.ok 0
  selectStarEq := fun _ _ _ _ => Except.ok []
  selectColumnsFrom := fun _ _ _ => Except.ok []
  selectColumnValues := fun _ _ => Except.ok ["a", "b", "a"]

/-- Witness for C9 at
`SELECT category, COUNT(*) as n FROM products GROUP BY category`. -/
theorem groupCount_translation_witness :
    parseAndExecuteQuery groupClient
        "SELECT category, COUNT(*) as n FROM products GROUP BY category".toList =
      (Except.ok (groupedRows "category".toList (aliasOrCount (some "n".toList))
          ["a", "b", "a"]),
       [BackendCall.columnValuesCall "products".toList "category".toList]) ∧
    (∀ v n, ((v, n) ∈ groupedCounts ["a", "b", "a"] ↔
        v ∈ ["a", "b", "a"] ∧ n = List.count v ["a", "b", "a"])) ∧
    (((groupedCounts ["a", "b", "a"]).map Prod.fst)).Nodup :=
  groupCount_translation groupClient
    "SELECT category, COUNT(*) as n FROM products GROUP BY category".toList
    (by decide) rfl rfl

/-- **C10.** Whenever the loose last-resort recognizer is the first rule to
match, the issued structured call is an unfiltered, unlimited select-all on
the captured table: any `WHERE`, `LIMIT` or other clauses in the input are
discarded. -/
theorem basicSelect_fallback {V : Type} [DecidableEq V]
    (client : SupabaseClient V) (query : List Char) {tbl : List Char}
    (h : firstMatchedPlan (trimChars (query.map toLowerCh)) =
      some (StructuredPlan.basicSelect tbl)) :
    parseAndExecuteQuery client query =
      (client.selectStar tbl none, [BackendCall.selectAllCall tbl none]) := by
  rw [parseAndExecuteQuery_eq_firstMatch, h]
  rfl

/-- Witness for C10 at `SELECT * FROM users WHERE id = 5 ORDER BY name`
(the `WHERE` predicate and `ORDER BY` clause are silently dropped). -/
theorem basicSelect_fallback_witness :
    firstMatchedPlan (trimChars
        ("SELECT * FROM users WHERE id = 5 ORDER BY name".toList.map toLowerCh)) =
      some (StructuredPlan.basicSelect "users".toList) ∧
    parseAndExecuteQuery okClient
        "SELECT * FROM users WHERE id = 5 ORDER BY name".toList =
      (okClient.selectStar "users".toList none,
       [BackendCall.selectAllCall "users".toList none]) :=
  ⟨by decide,
   basicSelect_fallback okClient
     "SELECT * FROM users WHERE id = 5 ORDER BY name".toList (by decide)⟩


end DbHelpers
